import Mathlib

/-!
Verification of the pomoday task tracker (src/components/App.tsx).

The file embeds the command parser, the task reducer, the Today view and the
initial-state loader as executable Lean definitions, then proves the spec's
claims about them.  Timestamps (epoch milliseconds) are modelled as `Nat`;
JavaScript's absent/`undefined` log list is modelled as `[]`, and the
"open worklog" sentinel (absent/zero `end`) as `end = 0`, exactly as the code
produces it (`begin` appends `{start: Date.now(), end: 0}`).
-/

namespace Pomoday

/-! ## Data model (App.tsx lines 35-48, 119-130) -/

inductive TaskStatus
  | NONE
  | DONE
  | WIP
  | WAIT
  | FLAG
deriving DecidableEq, Repr

structure Worklog where
  start : Nat
  «end» : Nat
deriving DecidableEq, Repr

structure TaskItem where
  id : Nat
  tag : String
  title : String
  status : TaskStatus
  logs : List Worklog
deriving DecidableEq, Repr

structure State where
  tasks : List TaskItem
  showHelp : Bool
  showToday : Bool
deriving DecidableEq, Repr

structure Command where
  command : String
  tag : Option String := none
  text : Option String := none
  id : Option Nat := none
deriving DecidableEq, Repr

/-! ## Character classes of the JavaScript regexes

`jsWhitespace` is the character set of the regex class `\s` (which coincides
with the set trimmed by `String.prototype.trim`), `isLineTerminator` the set
NOT matched by `.`, `Char.isDigit` models `\d`, and `isTagChar` the class
`[0-9a-zA-Z'-]` of the tag pattern. -/

def jsWhitespaceList : List Char :=
  [' ', '\t', '\n', '\u000B', '\u000C', '\r', '\u00A0', '\u1680',
   '\u2000', '\u2001', '\u2002', '\u2003', '\u2004', '\u2005', '\u2006',
   '\u2007', '\u2008', '\u2009', '\u200A', '\u2028', '\u2029', '\u202F',
   '\u205F', '\u3000', '\uFEFF']

def jsWhitespace (c : Char) : Bool := jsWhitespaceList.contains c

def isLineTerminator (c : Char) : Bool :=
  c = '\n' || c = '\r' || c = '\u2028' || c = '\u2029'

/-- The capture of a trailing `(.*)`: the maximal run of non-line-terminator
characters at the current position. -/
def dotRun (s : List Char) : List Char := s.takeWhile (fun c => !isLineTerminator c)

/-- `String.prototype.trim`. -/
def jsTrim (s : List Char) : List Char :=
  ((s.dropWhile jsWhitespace).reverse.dropWhile jsWhitespace).reverse

def isTagChar (c : Char) : Bool := c.isAlphanum || c = '\'' || c = '-'

/-! ## The regex matchers (App.tsx lines 50-58)

Each source regex is anchored (`^`) and case-insensitive on the verb.  The
verb alternatives (`c(?:heck)?` expands to `check` then `c`; `mv|move` in that
order) are tried greedily with backtracking: a later alternative is attempted
when the earlier one, or the rest of the pattern after it, fails. -/

/-- Case-insensitive literal match of `pat` against a prefix of `s`; returns
the matched input characters (original case) and the remainder. -/
def stripCI : List Char → List Char → Option (List Char × List Char)
  | [], s => some ([], s)
  | _ :: _, [] => none
  | p :: ps, c :: cs =>
    if c.toLower = p.toLower then
      match stripCI ps cs with
      | some (m, r) => some (c :: m, r)
      | none => none
    else none

/-- Backtracking over verb alternatives: try each pattern in order, running
the continuation `k` (the rest of the regex) on the remainder; the first
alternative whose continuation succeeds wins. -/
def tryVerbs (pats : List (List Char)) (k : List Char → List Char → Option α)
    (s : List Char) : Option α :=
  match pats with
  | [] => none
  | p :: ps =>
    match stripCI p s with
    | some (verb, rest) =>
      match k verb rest with
      | some r => some r
      | none => tryVerbs ps k s
    | none => tryVerbs ps k s

/-- The greedy match of `\d+`: maximal digit run and the remainder. -/
def takeDigits : List Char → List Char × List Char
  | [] => ([], [])
  | c :: cs =>
    if c.isDigit then
      let (ds, r) := takeDigits cs
      (c :: ds, r)
    else ([], c :: cs)

/-- `parseInt` on the captured digit run. -/
def parseInt (ds : List Char) : Nat :=
  ds.foldl (fun a c => a * 10 + (c.toNat - 48)) 0

/-- First (leftmost-greedy) match of the tag pattern
`@(?:\S*['-]?)(?:[0-9a-zA-Z'-]+)`: after the literal `@`, the greedy `\S*`
backtracks from the maximal non-whitespace run `w` until the tail pattern
matches, which happens exactly at the last `[0-9a-zA-Z'-]` character of `w`
(the class contains `'` and `-`, so the optional `['-]?` adds no further
match).  The capture is therefore `@` followed by `w` truncated after its
last tag character; no tag character in `w` means the pattern fails. -/
def matchTag : List Char → Option (List Char × List Char)
  | '@' :: u =>
    let w := u.takeWhile (fun c => !jsWhitespace c)
    let w' := (w.reverse.dropWhile (fun c => !isTagChar c)).reverse
    if w'.isEmpty then none
    else some ('@' :: w', u.drop w'.length)
  | _ => none

structure TaskMatch where
  verb : List Char
  tag : Option (List Char)
  text : List Char
deriving DecidableEq, Repr

structure EditMatch where
  verb : List Char
  idStr : List Char
  text : List Char
deriving DecidableEq, Repr

structure MoveMatch where
  verb : List Char
  idStr : List Char
  tag : List Char
deriving DecidableEq, Repr

structure IdMatch where
  verb : List Char
  idStr : List Char
deriving DecidableEq, Repr

/-- Rest of `/^(t(?:ask)?)\s(@...)?(.*)/` after the verb: one whitespace
character, the optional tag group, then the `(.*)` capture. -/
def taskTail (verb rest : List Char) : Option TaskMatch :=
  match rest with
  | [] => none
  | c :: rest2 =>
    if jsWhitespace c then
      match matchTag rest2 with
      | some (tg, rem) => some ⟨verb, some tg, dotRun rem⟩
      | none => some ⟨verb, none, dotRun rest2⟩
    else none

def parseTaskCommand (s : List Char) : Option TaskMatch :=
  tryVerbs ["task".data, "t".data] taskTail s

/-- Rest of `/^(e(?:dit)?)\s(\d+)(.*)/` after the verb. -/
def editTail (verb rest : List Char) : Option EditMatch :=
  match rest with
  | [] => none
  | c :: rest2 =>
    if jsWhitespace c then
      match takeDigits rest2 with
      | ([], _) => none
      | (ds, rem) => some ⟨verb, ds, dotRun rem⟩
    else none

def parseEditCommand (s : List Char) : Option EditMatch :=
  tryVerbs ["edit".data, "e".data] editTail s

/-- Rest of `/^(mv|move)\s(\d+)\s(@...)/` after the verb. -/
def moveTail (verb rest : List Char) : Option MoveMatch :=
  match rest with
  | [] => none
  | c :: rest2 =>
    if jsWhitespace c then
      match takeDigits rest2 with
      | ([], _) => none
      | (ds, rem) =>
        match rem with
        | [] => none
        | c2 :: rem2 =>
          if jsWhitespace c2 then
            match matchTag rem2 with
            | some (tg, _) => some ⟨verb, ds, tg⟩
            | none => none
          else none
    else none

def parseMoveCommand (s : List Char) : Option MoveMatch :=
  tryVerbs ["mv".data, "move".data] moveTail s

/-- Rest of `/^(c(?:heck)?)\s(\d+)/` (and the begin/delete/flag/stop
variants) after the verb: one whitespace character then the digit run;
anything after the digits is ignored (the regex is not end-anchored). -/
def idTail (verb rest : List Char) : Option IdMatch :=
  match rest with
  | [] => none
  | c :: rest2 =>
    if jsWhitespace c then
      match takeDigits rest2 with
      | ([], _) => none
      | (ds, _) => some ⟨verb, ds⟩
    else none

def parseCheckCommand (s : List Char) : Option IdMatch :=
  tryVerbs ["check".data, "c".data] idTail s

def parseBeginCommand (s : List Char) : Option IdMatch :=
  tryVerbs ["begin".data, "b".data] idTail s

def parseDeleteCommand (s : List Char) : Option IdMatch :=
  tryVerbs ["delete".data, "d".data] idTail s

def parseFlagCommand (s : List Char) : Option IdMatch :=
  tryVerbs ["flag".data, "fl".data] idTail s

def parseStopCommand (s : List Char) : Option IdMatch :=
  tryVerbs ["stop".data, "st".data] idTail s

/-- `/^(close-help|help|today)/i`: bare keyword prefix. -/
def parseOtherCommand (s : List Char) : Option (List Char) :=
  tryVerbs ["close-help".data, "help".data, "today".data]
    (fun verb _ => some verb) s

/-- `parseCheckCommand(input) || parseBeginCommand(input) || ...` -/
def matchOtherId (s : List Char) : Option IdMatch :=
  match parseCheckCommand s with
  | some m => some m
  | none =>
    match parseBeginCommand s with
    | some m => some m
    | none =>
      match parseDeleteCommand s with
      | some m => some m
      | none =>
        match parseFlagCommand s with
        | some m => some m
        | none => parseStopCommand s

def jsToLower (s : String) : String := String.mk (s.data.map Char.toLower)

/-! ## parseCommand (App.tsx lines 60-107) -/

def parseCommand (input : String) : Option Command :=
  match parseTaskCommand input.data with
  | some m =>
    some { command := String.mk m.verb, tag := m.tag.map String.mk,
           text := some (String.mk (jsTrim m.text)) }
  | none =>
    match parseEditCommand input.data with
    | some m =>
      some { command := String.mk m.verb, id := some (parseInt m.idStr),
             text := some (String.mk (jsTrim m.text)) }
    | none =>
      match parseMoveCommand input.data with
      | some m =>
        some { command := String.mk m.verb, id := some (parseInt m.idStr),
               tag := some (String.mk m.tag) }
      | none =>
        match matchOtherId input.data with
        | some m =>
          some { command := String.mk m.verb, id := some (parseInt m.idStr) }
        | none =>
          match parseOtherCommand input.data with
          | some verb => some { command := String.mk verb }
          | none => none

/-! ## The reducer (App.tsx lines 260-273 and 283-440) -/

/-- `stopWorkLogging` (lines 260-273): close the last log if it is open
(truthy `start`, falsy `end`); when the task has no logs at all, install a
single zero-length closed log. -/
def stopWorkLogging (t : TaskItem) (now : Nat) : TaskItem :=
  match t.logs.getLast? with
  | some lastLog =>
    if lastLog.start ≠ 0 ∧ lastLog.«end» = 0 then
      { t with logs := t.logs.dropLast ++ [⟨lastLog.start, now⟩] }
    else t
  | none => { t with logs := [⟨now, now⟩] }

/-- Per-task body of the `map` in the `begin` case (lines 303-318). -/
def beginTask (cid : Option Nat) (now : Nat) (t : TaskItem) : TaskItem :=
  if some t.id = cid then
    if t.status ≠ TaskStatus.WIP then
      { t with status := TaskStatus.WIP, logs := t.logs ++ [⟨now, 0⟩] }
    else t
  else t

/-- Per-task body of the `check` case (lines 319-334): the status toggle is
written there as one assignment followed by `if (t.status === DONE)`, which
holds exactly when the old status was ≠ DONE; the two toggle directions are
inlined here. -/
def checkTask (cid : Option Nat) (now : Nat) (t : TaskItem) : TaskItem :=
  if some t.id = cid then
    if t.status = TaskStatus.DONE then { t with status := TaskStatus.WAIT }
    else stopWorkLogging { t with status := TaskStatus.DONE } now
  else t

/-- Per-task body of the `flag` case (lines 348-361). -/
def flagTask (cid : Option Nat) (now : Nat) (t : TaskItem) : TaskItem :=
  if some t.id = cid then
    stopWorkLogging { t with
      status := if t.status = TaskStatus.FLAG then TaskStatus.WAIT else TaskStatus.FLAG } now
  else t

/-- Per-task body of the `stop` case (lines 362-377). -/
def stopTask (cid : Option Nat) (now : Nat) (t : TaskItem) : TaskItem :=
  if some t.id = cid then
    if t.status = TaskStatus.WIP then
      stopWorkLogging { t with status := TaskStatus.WAIT } now
    else t
  else t

/-- Per-task body of the `mv` case (lines 290-302); `cmd.tag` is always
present for a parsed move command. -/
def moveTask (cid : Option Nat) (ctag : Option String) (t : TaskItem) : TaskItem :=
  if some t.id = cid then { t with tag := ctag.getD "" } else t

/-- Per-task body of the `edit` case (lines 400-416). -/
def editTask (cid : Option Nat) (title : String) (t : TaskItem) : TaskItem :=
  if some t.id = cid then { t with title := title } else t

/-- The `reduce` computing the maximal existing id (lines 383-388). -/
def nextIdOf (tasks : List TaskItem) : Nat :=
  tasks.foldl (fun maxId t => if t.id > maxId then t.id else maxId) 0

/-- `cmd.tag || "@uncategorized"` (line 380). -/
def taskTagOf (ctag : Option String) : String :=
  match ctag with
  | some g => if g.isEmpty then "@uncategorized" else g
  | none => "@uncategorized"

/-- The `switch` dispatch of `onKeyPress` (lines 289-435), on the already
lowercased verb; `now` is the value of `Date.now()` during this event. -/
def applyVerb (s : State) (cmd : Command) (now : Nat) (verb : String) : State :=
  match verb with
  | "mv" | "move" => { s with tasks := s.tasks.map (moveTask cmd.id cmd.tag) }
  | "b" | "begin" => { s with tasks := s.tasks.map (beginTask cmd.id now) }
  | "c" | "check" => { s with tasks := s.tasks.map (checkTask cmd.id now) }
  | "d" | "delete" =>
    { s with tasks := s.tasks.filter (fun t => some t.id != cmd.id) }
  | "fl" | "flag" => { s with tasks := s.tasks.map (flagTask cmd.id now) }
  | "st" | "stop" => { s with tasks := s.tasks.map (stopTask cmd.id now) }
  | "t" | "task" =>
    let tag := taskTagOf cmd.tag
    match cmd.text with
    | some task =>
      if task.isEmpty then s
      else
        let newTask : TaskItem :=
          { id := nextIdOf s.tasks + 1, tag := tag, title := task,
            status := TaskStatus.WAIT, logs := [] }
        { s with tasks := s.tasks ++ [newTask] }
    | none => s
  | "e" | "edit" =>
    match cmd.text with
    | some task =>
      if task.isEmpty then s
      else { s with tasks := s.tasks.map (editTask cmd.id task) }
    | none => s
  | "help" => { s with showHelp := true }
  | "close-help" => { s with showHelp := false }
  | "today" => { s with showToday := !s.showToday }
  | _ => s

/-- `switch (cmd.command.toLowerCase())` (line 289). -/
def applyCommand (s : State) (cmd : Command) (now : Nat) : State :=
  applyVerb s cmd now (jsToLower cmd.command)

/-- One submitted input line: parse, then apply when a command matched. -/
def applyInput (s : State) (input : String) (now : Nat) : State :=
  match parseCommand input with
  | some cmd => applyCommand s cmd now
  | none => s

/-- Fold a list of `(input line, Date.now() at that event)` pairs. -/
def runInputs (s : State) (inputs : List (String × Nat)) : State :=
  inputs.foldl (fun s p => applyInput s p.1 p.2) s

/-- Fold a list of already-parsed commands with their event times. -/
def runCmds (s : State) (cs : List (Command × Nat)) : State :=
  cs.foldl (fun s p => applyCommand s p.1 p.2) s

/-- The default state (App.tsx lines 253-257). -/
def defaultState : State := { tasks := [], showHelp := true, showToday := false }

/-! ## Today view (App.tsx lines 202-226) -/

def absDiff (a b : Nat) : Nat := if a ≤ b then b - a else a - b

/-- `isSameDay` (line 202): `Math.abs(a - b) <= 86400000`. -/
def isSameDay (a b : Nat) : Bool := absDiff a b ≤ 86400000

structure TodayEntry where
  task : String
  start : Nat
  «end» : Nat
  done : Bool
deriving DecidableEq, Repr

/-- The inner `t.logs.reduce` of `Today` (lines 209-219). -/
def taskTodayLogs (now : Nat) (t : TaskItem) : List TodayEntry :=
  t.logs.enum.filterMap (fun p =>
    if p.2.start ≠ 0 ∧ isSameDay now p.2.start then
      some ⟨t.title, p.2.start, p.2.«end»,
        decide (p.2.«end» ≠ 0 ∧ p.1 = t.logs.length - 1 ∧ t.status = TaskStatus.DONE)⟩
    else none)

def todayUnsorted (now : Nat) (s : State) : List TodayEntry :=
  s.tasks.flatMap (taskTodayLogs now)

/-- The `today` array after `today.sort((a, b) => a.start - b.start)`
(lines 207-224): ascending stable sort by `start`. -/
def todayList (now : Nat) (s : State) : List TodayEntry :=
  (todayUnsorted now s).mergeSort (fun a b => a.start ≤ b.start)

/-- Modelled from the spec (section 4.3, "Today activity"), for comparison
with `todayList`: for each task, each Worklog whose `start` falls within 24
hours (absolute difference) of `now()`, flattened, sorted ascending by
`start`, each annotated with whether it is the task's final log and the task
is DONE. -/
def todaySpecEntries (now : Nat) (s : State) : List TodayEntry :=
  s.tasks.flatMap (fun t =>
    t.logs.enum.filterMap (fun p =>
      if absDiff now p.2.start ≤ 86400000 then
        some ⟨t.title, p.2.start, p.2.«end»,
          decide (p.1 = t.logs.length - 1 ∧ t.status = TaskStatus.DONE)⟩
      else none))

def todaySpec (now : Nat) (s : State) : List TodayEntry :=
  (todaySpecEntries now s).mergeSort (fun a b => a.start ≤ b.start)

/-! ## Initial-state load (App.tsx lines 241-258)

`JSON.parse` is an external collaborator: it is passed in as a function
returning `Except Unit JsVal`, where `.error` models a thrown exception and
`JsVal` carries enough structure for the truthiness test `if (parsed)`;
a successfully parsed truthy value is returned as-is (`.inl`), anything else
falls back to the default state (`.inr`). -/

inductive JsVal
  | vnull
  | vbool (b : Bool)
  | vnum (n : Int)
  | vstr (s : String)
  | vstate (s : State)
deriving DecidableEq, Repr

def truthy : JsVal → Bool
  | .vnull => false
  | .vbool b => b
  | .vnum n => n != 0
  | .vstr s => !s.isEmpty
  | .vstate _ => true

def getInitialState (hasLocalStorage : Bool) (saved : Option String)
    (parseJson : String → Except Unit JsVal) : JsVal ⊕ State :=
  if hasLocalStorage then
    match saved with
    | some s =>
      match parseJson s with
      | .ok parsed => if truthy parsed then .inl parsed else .inr defaultState
      | .error _ => .inr defaultState
    | none => .inr defaultState
  else .inr defaultState

/-! ## Helper lemmas -/

theorem applyCommand_eq_applyVerb (s : State) (c : Command) (now : Nat) (v : String)
    (h : jsToLower c.command = v) : applyCommand s c now = applyVerb s c now v := by
  rw [applyCommand, h]

theorem applyVerb_b (s : State) (c : Command) (now : Nat) :
    applyVerb s c now "b" = { s with tasks := s.tasks.map (beginTask c.id now) } := rfl

theorem applyVerb_begin (s : State) (c : Command) (now : Nat) :
    applyVerb s c now "begin" = { s with tasks := s.tasks.map (beginTask c.id now) } := rfl

theorem applyVerb_c (s : State) (c : Command) (now : Nat) :
    applyVerb s c now "c" = { s with tasks := s.tasks.map (checkTask c.id now) } := rfl

theorem applyVerb_check (s : State) (c : Command) (now : Nat) :
    applyVerb s c now "check" = { s with tasks := s.tasks.map (checkTask c.id now) } := rfl

theorem applyVerb_fl (s : State) (c : Command) (now : Nat) :
    applyVerb s c now "fl" = { s with tasks := s.tasks.map (flagTask c.id now) } := rfl

theorem applyVerb_flag (s : State) (c : Command) (now : Nat) :
    applyVerb s c now "flag" = { s with tasks := s.tasks.map (flagTask c.id now) } := rfl

theorem applyVerb_st (s : State) (c : Command) (now : Nat) :
    applyVerb s c now "st" = { s with tasks := s.tasks.map (stopTask c.id now) } := rfl

theorem applyVerb_stop (s : State) (c : Command) (now : Nat) :
    applyVerb s c now "stop" = { s with tasks := s.tasks.map (stopTask c.id now) } := rfl

theorem stopWorkLogging_id (t : TaskItem) (now : Nat) :
    (stopWorkLogging t now).id = t.id := by
  unfold stopWorkLogging
  split
  · split <;> rfl
  · rfl

theorem stopWorkLogging_status (t : TaskItem) (now : Nat) :
    (stopWorkLogging t now).status = t.status := by
  unfold stopWorkLogging
  split
  · split <;> rfl
  · rfl

theorem stopWorkLogging_logs_nil (t : TaskItem) (now : Nat) (h : t.logs = []) :
    (stopWorkLogging t now).logs = [⟨now, now⟩] := by
  unfold stopWorkLogging
  rw [h]
  rfl

theorem stopWorkLogging_logs_open (t : TaskItem) (now : Nat) (init : List Worklog)
    (w : Worklog) (h : t.logs = init ++ [w]) (hs : w.start ≠ 0) (he : w.«end» = 0) :
    (stopWorkLogging t now).logs = init ++ [⟨w.start, now⟩] := by
  unfold stopWorkLogging
  rw [h, List.getLast?_concat]
  simp [hs, he, List.dropLast_concat]

theorem stopWorkLogging_closed (t : TaskItem) (now : Nat) (init : List Worklog)
    (w : Worklog) (h : t.logs = init ++ [w]) (hc : w.start = 0 ∨ w.«end» ≠ 0) :
    stopWorkLogging t now = t := by
  unfold stopWorkLogging
  rw [h, List.getLast?_concat]
  have : ¬(w.start ≠ 0 ∧ w.«end» = 0) := by
    rcases hc with hc | hc
    · exact fun hh => hh.1 hc
    · exact fun hh => hc hh.2
  simp [this]

theorem stopWorkLogging_logs_closed (t : TaskItem) (now : Nat) (init : List Worklog)
    (w : Worklog) (h : t.logs = init ++ [w]) (hc : w.start = 0 ∨ w.«end» ≠ 0) :
    (stopWorkLogging t now).logs = t.logs := by
  rw [stopWorkLogging_closed t now init w h hc]

/-! ## C4: end-to-end scenario -/

/-- C4: applying `"t @work Write spec"`, `"b 1"`, `"c 1"`, `"c 1"`, `"d 1"`
in order to the empty state yields, step by step: one WAIT task
`{id 1, tag "@work", title "Write spec", logs []}`; then WIP with one open
log; then DONE with that log closed; then WAIT with logs unchanged; then an
empty task list. -/
theorem C4_end_to_end_scenario :
    runInputs defaultState [("t @work Write spec", 100)] =
      { tasks := [⟨1, "@work", "Write spec", TaskStatus.WAIT, []⟩],
        showHelp := true, showToday := false } ∧
    runInputs defaultState [("t @work Write spec", 100), ("b 1", 200)] =
      { tasks := [⟨1, "@work", "Write spec", TaskStatus.WIP, [⟨200, 0⟩]⟩],
        showHelp := true, showToday := false } ∧
    runInputs defaultState [("t @work Write spec", 100), ("b 1", 200), ("c 1", 300)] =
      { tasks := [⟨1, "@work", "Write spec", TaskStatus.DONE, [⟨200, 300⟩]⟩],
        showHelp := true, showToday := false } ∧
    runInputs defaultState
        [("t @work Write spec", 100), ("b 1", 200), ("c 1", 300), ("c 1", 400)] =
      { tasks := [⟨1, "@work", "Write spec", TaskStatus.WAIT, [⟨200, 300⟩]⟩],
        showHelp := true, showToday := false } ∧
    runInputs defaultState
        [("t @work Write spec", 100), ("b 1", 200), ("c 1", 300), ("c 1", 400), ("d 1", 500)] =
      { tasks := [], showHelp := true, showToday := false } := by
  refine ⟨?_, ?_, ?_, ?_, ?_⟩ <;> rfl

/-! ## C1: id assignment -/

/-- C1 counterexample: ids ARE reused after deletion.  Starting from the
empty state, `"t a"` assigns id 1; after `"d 1"` deletes it, `"t b"` assigns
id 1 again (max existing id is 0), so after N = 2 `task` commands the set of
ids ever assigned is {1}, not {1, 2}. -/
theorem C1_counterexample :
    (applyInput defaultState "t a" 1).tasks.map (fun t => t.id) = [1] ∧
    (applyInput (applyInput defaultState "t a" 1) "d 1" 2).tasks = [] ∧
    (applyInput (applyInput (applyInput defaultState "t a" 1) "d 1" 2) "t b" 3).tasks.map
      (fun t => t.id) = [1] := by
  refine ⟨?_, ?_, ?_⟩ <;> rfl

theorem applyVerb_t (s : State) (c : Command) (now : Nat) :
    applyVerb s c now "t" = applyVerb s c now "task" := rfl

theorem applyVerb_task (s : State) (c : Command) (now : Nat) (txt : String)
    (htxt : c.text = some txt) (hne : txt ≠ "") :
    applyVerb s c now "task" =
      { s with tasks := s.tasks ++
          [⟨nextIdOf s.tasks + 1, taskTagOf c.tag, txt, TaskStatus.WAIT, []⟩] } := by
  unfold applyVerb
  rw [htxt]
  simp only []
  rw [if_neg (by simpa [String.isEmpty_iff] using hne)]

theorem foldl_maxId_eq (tasks : List TaskItem) (a : Nat) :
    tasks.foldl (fun maxId t => if t.id > maxId then t.id else maxId) a =
      (tasks.map (fun t => t.id)).foldl (fun m i => if i > m then i else m) a := by
  induction tasks generalizing a with
  | nil => rfl
  | cons t ts ih => simp [ih]

theorem foldl_max_range' (k : Nat) :
    (List.range' 1 k).foldl (fun m i => if i > m then i else m) 0 = k := by
  induction k with
  | zero => rfl
  | succ n ih =>
    rw [List.range'_concat, List.foldl_append, ih]
    simp
    omega

theorem nextIdOf_range (tasks : List TaskItem) (k : Nat)
    (h : tasks.map (fun t => t.id) = List.range' 1 k) : nextIdOf tasks = k := by
  rw [nextIdOf, foldl_maxId_eq, h, foldl_max_range']

theorem runCmds_task_ids (cs : List (Command × Nat)) (k : Nat) (s : State)
    (h : s.tasks.map (fun t => t.id) = List.range' 1 k)
    (hcs : ∀ p ∈ cs, (jsToLower p.1.command = "t" ∨ jsToLower p.1.command = "task") ∧
      ∃ txt, p.1.text = some txt ∧ txt ≠ "") :
    (runCmds s cs).tasks.map (fun t => t.id) = List.range' 1 (k + cs.length) := by
  induction cs generalizing s k with
  | nil => simpa using h
  | cons p ps ih =>
    obtain ⟨hverb, txt, htxt, hne⟩ := hcs p (List.mem_cons_self p ps)
    have hstep : (applyCommand s p.1 p.2).tasks.map (fun t => t.id) =
        List.range' 1 (k + 1) := by
      have hv : applyCommand s p.1 p.2 = applyVerb s p.1 p.2 "task" := by
        rcases hverb with hv | hv
        · rw [applyCommand_eq_applyVerb s p.1 p.2 _ hv, applyVerb_t]
        · exact applyCommand_eq_applyVerb s p.1 p.2 _ hv
      rw [hv, applyVerb_task s p.1 p.2 txt htxt hne]
      simp only [List.map_append, h, nextIdOf_range s.tasks k h]
      rw [List.range'_concat]
      simp [Nat.add_comm]
    have hrun : runCmds s (p :: ps) = runCmds (applyCommand s p.1 p.2) ps := rfl
    rw [hrun, ih (k + 1) _ hstep (fun q hq => hcs q (List.mem_cons_of_mem p hq))]
    congr 1
    simp
    omega

/-- C1 amended: new ids are assigned as `max(existing ids) + 1` (1 when the
list is empty), so ids are unique in the live list and N `task` commands
with non-empty text and NO deletes interleaved assign exactly the ids
{1..N}; but an id CAN be reused after the task holding the maximal id is
deleted (see the counterexample). -/
theorem C1_amended_sequential_ids (cs : List (Command × Nat))
    (hcs : ∀ p ∈ cs, (jsToLower p.1.command = "t" ∨ jsToLower p.1.command = "task") ∧
      ∃ txt, p.1.text = some txt ∧ txt ≠ "") :
    (runCmds defaultState cs).tasks.map (fun t => t.id) = List.range' 1 cs.length := by
  have := runCmds_task_ids cs 0 defaultState rfl hcs
  simpa using this

theorem C1_amended_sequential_ids_witness :
    (runCmds defaultState
      [(⟨"t", none, some "a", none⟩, 1), (⟨"task", none, some "b", none⟩, 2)]).tasks.map
        (fun t => t.id) = List.range' 1 2 := by
  apply C1_amended_sequential_ids
  intro p hp
  rcases List.mem_cons.mp hp with rfl | hp
  · exact ⟨Or.inl rfl, "a", rfl, by decide⟩
  rcases List.mem_cons.mp hp with rfl | hp
  · exact ⟨Or.inr rfl, "b", rfl, by decide⟩
  · cases hp

/-! ## C3: worklog closing on check/flag -/

/-- C3 counterexample: `check 1` on a WAIT task whose logs are non-empty but
contain no open worklog (single closed log {start 10, end 20}) appends
NOTHING: the zero-length fallback only fires when the task has no logs at
all, so the state keeps logs [{10, 20}], while the claim demands an appended
{start 30, end 30}. -/
theorem C3_counterexample :
    applyInput
      { tasks := [⟨1, "@x", "a", TaskStatus.WAIT, [⟨10, 20⟩]⟩],
        showHelp := true, showToday := false } "c 1" 30 =
      { tasks := [⟨1, "@x", "a", TaskStatus.DONE, [⟨10, 20⟩]⟩],
        showHelp := true, showToday := false } := by
  rfl

/-- C3 amended: when `check id` hits an existing task with status ≠ DONE, or
`flag id` hits an existing task (either toggle direction), then: if the last
log is open (nonzero `start`, zero `end`) it gets `end = now()`; if the task
has NO logs at all, a zero-length closed worklog {start now, end now} is
appended; and if logs are non-empty but the last one is closed (or has zero
start), the logs are unchanged. -/
theorem C3_amended_close_or_seed (s : State) (c : Command) (now i : Nat) (t : TaskItem)
    (hget : s.tasks[i]? = some t) (hid : c.id = some t.id)
    (hcase : ((jsToLower c.command = "c" ∨ jsToLower c.command = "check") ∧
        t.status ≠ TaskStatus.DONE) ∨
      (jsToLower c.command = "fl" ∨ jsToLower c.command = "flag")) :
    ∃ t', (applyCommand s c now).tasks[i]? = some t' ∧
      (t.logs = [] → t'.logs = [⟨now, now⟩]) ∧
      (∀ init w, t.logs = init ++ [w] → w.start ≠ 0 → w.«end» = 0 →
        t'.logs = init ++ [⟨w.start, now⟩]) ∧
      (∀ init w, t.logs = init ++ [w] → w.start = 0 ∨ w.«end» ≠ 0 →
        t'.logs = t.logs) := by
  have hmatch : some t.id = c.id := hid.symm
  rcases hcase with ⟨hverb, hstat⟩ | hverb
  · have hv : applyCommand s c now = { s with tasks := s.tasks.map (checkTask c.id now) } := by
      rcases hverb with hv | hv
      · rw [applyCommand_eq_applyVerb s c now _ hv, applyVerb_c]
      · rw [applyCommand_eq_applyVerb s c now _ hv, applyVerb_check]
    have hck : checkTask c.id now t =
        stopWorkLogging { t with status := TaskStatus.DONE } now := by
      unfold checkTask
      rw [if_pos hmatch, if_neg hstat]
    refine ⟨checkTask c.id now t, ?_, ?_, ?_, ?_⟩
    · rw [hv]
      simp [List.getElem?_map, hget]
    · intro h
      rw [hck]
      exact stopWorkLogging_logs_nil _ now h
    · intro init w h hs he
      rw [hck]
      exact stopWorkLogging_logs_open _ now init w h hs he
    · intro init w h hc
      rw [hck]
      exact stopWorkLogging_logs_closed _ now init w h hc
  · have hv : applyCommand s c now = { s with tasks := s.tasks.map (flagTask c.id now) } := by
      rcases hverb with hv | hv
      · rw [applyCommand_eq_applyVerb s c now _ hv, applyVerb_fl]
      · rw [applyCommand_eq_applyVerb s c now _ hv, applyVerb_flag]
    have hfl : flagTask c.id now t = stopWorkLogging ⟨t.id, t.tag, t.title, (if t.status = TaskStatus.FLAG then TaskStatus.WAIT else TaskStatus.FLAG), t.logs⟩ now := by
      unfold flagTask
      rw [if_pos hmatch]
    refine ⟨flagTask c.id now t, ?_, ?_, ?_, ?_⟩
    · rw [hv]
      simp [List.getElem?_map, hget]
    · intro h
      rw [hfl]
      exact stopWorkLogging_logs_nil _ now h
    · intro init w h hs he
      rw [hfl]
      exact stopWorkLogging_logs_open _ now init w h hs he
    · intro init w h hc
      rw [hfl]
      exact stopWorkLogging_logs_closed _ now init w h hc

theorem C3_amended_close_or_seed_witness :
    ∃ t', (applyCommand
      { tasks := [⟨1, "@x", "a", TaskStatus.WAIT, []⟩],
        showHelp := true, showToday := false } ⟨"c", none, none, some 1⟩ 5).tasks[0]? =
          some t' ∧
      (([] : List Worklog) = [] → t'.logs = [⟨5, 5⟩]) ∧
      (∀ init w, ([] : List Worklog) = init ++ [w] → w.start ≠ 0 → w.«end» = 0 →
        t'.logs = init ++ [⟨w.start, 5⟩]) ∧
      (∀ init w, ([] : List Worklog) = init ++ [w] → w.start = 0 ∨ w.«end» ≠ 0 →
        t'.logs = ([] : List Worklog)) := by
  exact C3_amended_close_or_seed _ ⟨"c", none, none, some 1⟩ 5 0
    ⟨1, "@x", "a", TaskStatus.WAIT, []⟩ (by rfl) (by rfl)
    (Or.inl ⟨Or.inl (by rfl), by decide⟩)

/-! ## Field lemmas for the per-task updates -/

theorem checkTask_id (cid : Option Nat) (now : Nat) (t : TaskItem) :
    (checkTask cid now t).id = t.id := by
  unfold checkTask
  split
  · split
    · rfl
    · rw [stopWorkLogging_id]
  · rfl

theorem checkTask_status_match (cid : Option Nat) (now : Nat) (t : TaskItem)
    (h : some t.id = cid) :
    (checkTask cid now t).status =
      (if t.status = TaskStatus.DONE then TaskStatus.WAIT else TaskStatus.DONE) := by
  unfold checkTask
  rw [if_pos h]
  by_cases hd : t.status = TaskStatus.DONE
  · rw [if_pos hd, if_pos hd]
  · rw [if_neg hd, if_neg hd, stopWorkLogging_status]

theorem flagTask_id (cid : Option Nat) (now : Nat) (t : TaskItem) :
    (flagTask cid now t).id = t.id := by
  unfold flagTask
  split
  · rw [stopWorkLogging_id]
  · rfl

theorem flagTask_status_match (cid : Option Nat) (now : Nat) (t : TaskItem)
    (h : some t.id = cid) :
    (flagTask cid now t).status =
      (if t.status = TaskStatus.FLAG then TaskStatus.WAIT else TaskStatus.FLAG) := by
  unfold flagTask
  rw [if_pos h]
  rw [stopWorkLogging_status]

/-! ## C5: no-op commands -/

/-- C5: `begin id` on a task already in WIP status leaves the whole task
(hence its `logs`) unchanged — no duplicate open entry is appended; and
`stop id` when every task carrying this id is non-WIP returns a state equal
to the input state (object identity in the source is rendered as value
equality in this embedding). -/
theorem C5_noop_begin_and_stop :
    (∀ (s : State) (c : Command) (now i : Nat) (t : TaskItem),
        s.tasks[i]? = some t → c.id = some t.id →
        (jsToLower c.command = "b" ∨ jsToLower c.command = "begin") →
        t.status = TaskStatus.WIP →
        (applyCommand s c now).tasks[i]? = some t) ∧
    (∀ (s : State) (c : Command) (now : Nat),
        (jsToLower c.command = "st" ∨ jsToLower c.command = "stop") →
        (∀ t ∈ s.tasks, c.id = some t.id → t.status ≠ TaskStatus.WIP) →
        applyCommand s c now = s) := by
  constructor
  · intro s c now i t hget hid hverb hwip
    have hv : applyCommand s c now = { s with tasks := s.tasks.map (beginTask c.id now) } := by
      rcases hverb with hv | hv
      · rw [applyCommand_eq_applyVerb s c now _ hv, applyVerb_b]
      · rw [applyCommand_eq_applyVerb s c now _ hv, applyVerb_begin]
    have hb : beginTask c.id now t = t := by
      unfold beginTask
      rw [if_pos hid.symm, if_neg (by simp [hwip])]
    rw [hv]
    simp [List.getElem?_map, hget, hb]
  · intro s c now hverb hnz
    have hv : applyCommand s c now = { s with tasks := s.tasks.map (stopTask c.id now) } := by
      rcases hverb with hv | hv
      · rw [applyCommand_eq_applyVerb s c now _ hv, applyVerb_st]
      · rw [applyCommand_eq_applyVerb s c now _ hv, applyVerb_stop]
    have hmap : s.tasks.map (stopTask c.id now) = s.tasks := by
      rw [List.map_congr_left (g := id), List.map_id]
      intro t ht
      unfold stopTask
      by_cases hm : some t.id = c.id
      · rw [if_pos hm, if_neg (hnz t ht hm.symm)]
        rfl
      · rw [if_neg hm]
        rfl
    rw [hv, hmap]

theorem C5_noop_begin_and_stop_witness :
    (applyCommand
      { tasks := [⟨1, "@x", "a", TaskStatus.WIP, [⟨3, 0⟩]⟩],
        showHelp := true, showToday := false } ⟨"b", none, none, some 1⟩ 7).tasks[0]? =
      some ⟨1, "@x", "a", TaskStatus.WIP, [⟨3, 0⟩]⟩ ∧
    applyCommand
      { tasks := [⟨1, "@x", "a", TaskStatus.WAIT, []⟩],
        showHelp := true, showToday := false } ⟨"st", none, none, some 1⟩ 7 =
      { tasks := [⟨1, "@x", "a", TaskStatus.WAIT, []⟩],
        showHelp := true, showToday := false } := by
  constructor
  · exact C5_noop_begin_and_stop.1 _ ⟨"b", none, none, some 1⟩ 7 0
      ⟨1, "@x", "a", TaskStatus.WIP, [⟨3, 0⟩]⟩ (by rfl) rfl (Or.inl rfl) rfl
  · exact C5_noop_begin_and_stop.2 _ ⟨"st", none, none, some 1⟩ 7 (Or.inl rfl)
      (by decide)

/-! ## C7: check/flag double-toggle returns to WAIT -/

/-- C7: for a task in status WAIT, applying the same `check id` command twice
(with no other mutation in between) returns the task's status to WAIT, and
likewise applying `flag id` twice returns the status to WAIT. -/
theorem C7_double_toggle_to_wait :
    (∀ (s : State) (c : Command) (now1 now2 i : Nat) (t : TaskItem),
        s.tasks[i]? = some t → c.id = some t.id →
        (jsToLower c.command = "c" ∨ jsToLower c.command = "check") →
        t.status = TaskStatus.WAIT →
        ((applyCommand (applyCommand s c now1) c now2).tasks[i]?).map (fun u => u.status) =
          some TaskStatus.WAIT) ∧
    (∀ (s : State) (c : Command) (now1 now2 i : Nat) (t : TaskItem),
        s.tasks[i]? = some t → c.id = some t.id →
        (jsToLower c.command = "fl" ∨ jsToLower c.command = "flag") →
        t.status = TaskStatus.WAIT →
        ((applyCommand (applyCommand s c now1) c now2).tasks[i]?).map (fun u => u.status) =
          some TaskStatus.WAIT) := by
  constructor
  · intro s c now1 now2 i t hget hid hverb hwait
    have hv1 : applyCommand s c now1 = { s with tasks := s.tasks.map (checkTask c.id now1) } := by
      rcases hverb with hv | hv
      · rw [applyCommand_eq_applyVerb s c now1 _ hv, applyVerb_c]
      · rw [applyCommand_eq_applyVerb s c now1 _ hv, applyVerb_check]
    have hv2 : ∀ s', applyCommand s' c now2 =
        { s' with tasks := s'.tasks.map (checkTask c.id now2) } := by
      intro s'
      rcases hverb with hv | hv
      · rw [applyCommand_eq_applyVerb s' c now2 _ hv, applyVerb_c]
      · rw [applyCommand_eq_applyVerb s' c now2 _ hv, applyVerb_check]
    rw [hv2, hv1]
    simp only [List.getElem?_map, hget, Option.map_some']
    have hm1 : some t.id = c.id := hid.symm
    have hm2 : some (checkTask c.id now1 t).id = c.id := by rw [checkTask_id]; exact hm1
    rw [checkTask_status_match _ _ _ hm2, checkTask_status_match _ _ _ hm1, hwait]
    decide
  · intro s c now1 now2 i t hget hid hverb hwait
    have hv1 : applyCommand s c now1 = { s with tasks := s.tasks.map (flagTask c.id now1) } := by
      rcases hverb with hv | hv
      · rw [applyCommand_eq_applyVerb s c now1 _ hv, applyVerb_fl]
      · rw [applyCommand_eq_applyVerb s c now1 _ hv, applyVerb_flag]
    have hv2 : ∀ s', applyCommand s' c now2 =
        { s' with tasks := s'.tasks.map (flagTask c.id now2) } := by
      intro s'
      rcases hverb with hv | hv
      · rw [applyCommand_eq_applyVerb s' c now2 _ hv, applyVerb_fl]
      · rw [applyCommand_eq_applyVerb s' c now2 _ hv, applyVerb_flag]
    rw [hv2, hv1]
    simp only [List.getElem?_map, hget, Option.map_some']
    have hm1 : some t.id = c.id := hid.symm
    have hm2 : some (flagTask c.id now1 t).id = c.id := by rw [flagTask_id]; exact hm1
    rw [flagTask_status_match _ _ _ hm2, flagTask_status_match _ _ _ hm1, hwait]
    decide

theorem C7_double_toggle_to_wait_witness :
    ((applyCommand
      (applyCommand
        { tasks := [⟨1, "@x", "a", TaskStatus.WAIT, []⟩],
          showHelp := true, showToday := false } ⟨"c", none, none, some 1⟩ 4)
      ⟨"c", none, none, some 1⟩ 9).tasks[0]?).map (fun u => u.status) =
        some TaskStatus.WAIT ∧
    ((applyCommand
      (applyCommand
        { tasks := [⟨1, "@x", "a", TaskStatus.WAIT, []⟩],
          showHelp := true, showToday := false } ⟨"fl", none, none, some 1⟩ 4)
      ⟨"fl", none, none, some 1⟩ 9).tasks[0]?).map (fun u => u.status) =
        some TaskStatus.WAIT := by
  constructor
  · exact C7_double_toggle_to_wait.1 _ ⟨"c", none, none, some 1⟩ 4 9 0
      ⟨1, "@x", "a", TaskStatus.WAIT, []⟩ (by rfl) rfl (Or.inl rfl) rfl
  · exact C7_double_toggle_to_wait.2 _ ⟨"fl", none, none, some 1⟩ 4 9 0
      ⟨1, "@x", "a", TaskStatus.WAIT, []⟩ (by rfl) rfl (Or.inl rfl) rfl

/-! ## C9: initial-state load failure -/

/-- C9: on any persistence load failure — no localStorage, stored blob
absent, or `JSON.parse` throwing — `getInitialState` returns exactly the
default state {tasks: [], showHelp: true, showToday: false}; the exception
is caught inside the load (modelled by `parseJson` returning `.error`,
consumed here), so none escapes. -/
theorem C9_load_failure_default (hasLS : Bool) (saved : Option String)
    (parseJson : String → Except Unit JsVal)
    (h : saved = none ∨ ∃ blob, saved = some blob ∧ parseJson blob = .error ()) :
    getInitialState hasLS saved parseJson = .inr defaultState ∧
    defaultState = { tasks := [], showHelp := true, showToday := false } := by
  refine ⟨?_, rfl⟩
  unfold getInitialState
  cases hasLS with
  | false => rfl
  | true =>
    rcases h with rfl | ⟨blob, rfl, hp⟩
    · rfl
    · simp [hp]

theorem C9_load_failure_default_witness :
    getInitialState true none (fun _ => .error ()) = .inr defaultState ∧
    defaultState = { tasks := [], showHelp := true, showToday := false } :=
  C9_load_failure_default true none (fun _ => .error ()) (Or.inl rfl)

/-! ## C2: worklog invariants -/

/-- Number of open worklogs (zero `end`) of a task. -/
def openCount (t : TaskItem) : Nat := (t.logs.filter (fun l => l.«end» == 0)).length

/-- The per-task data invariant maintained by the reducer under positive
timestamps: every log has a positive `start`, every log but the last is
closed, and an open log forces status WIP. -/
def InvTask (t : TaskItem) : Prop :=
  (∀ l ∈ t.logs, 0 < l.start) ∧
  (∀ l ∈ t.logs.dropLast, l.«end» ≠ 0) ∧
  ((∃ l ∈ t.logs, l.«end» = 0) → t.status = TaskStatus.WIP)

def InvState (s : State) : Prop := ∀ t ∈ s.tasks, InvTask t

/-- A state is reachable when it arises from the default state by a sequence
of submitted input lines at positive (`Date.now()`) timestamps. -/
def Reachable (s : State) : Prop :=
  ∃ inputs : List (String × Nat), (∀ p ∈ inputs, 0 < p.2) ∧ s = runInputs defaultState inputs

/-- `l'` keeps every already-closed log of `l` unchanged at its position. -/
def endsPreserved (l l' : List Worklog) : Prop :=
  ∀ (i : Nat) (w : Worklog), l[i]? = some w → w.«end» ≠ 0 → l'[i]? = some w

theorem endsPreserved_refl (l : List Worklog) : endsPreserved l l :=
  fun _ _ h _ => h

theorem endsPreserved_trans {l1 l2 l3 : List Worklog}
    (h12 : endsPreserved l1 l2) (h23 : endsPreserved l2 l3) : endsPreserved l1 l3 :=
  fun i w h hne => h23 i w (h12 i w h hne) hne

theorem endsPreserved_append (l l' : List Worklog) : endsPreserved l (l ++ l') := by
  intro i w h _
  rw [List.getElem?_append_left (List.getElem?_eq_some.mp h).1]
  exact h

theorem stopWorkLogging_endsPreserved (t : TaskItem) (now : Nat) :
    endsPreserved t.logs (stopWorkLogging t now).logs := by
  rcases List.eq_nil_or_concat t.logs with hnil | ⟨init, w0, hcat⟩
  · intro i w h _
    rw [hnil] at h
    simp at h
  · rw [List.concat_eq_append] at hcat
    by_cases hc : w0.start ≠ 0 ∧ w0.«end» = 0
    · rw [stopWorkLogging_logs_open t now init w0 hcat hc.1 hc.2]
      intro i w h hne
      rw [hcat] at h
      have hi : i < init.length + 1 := by
        have := (List.getElem?_eq_some.mp h).1
        simpa using this
      rcases Nat.lt_or_ge i init.length with hlt | hge
      · rw [List.getElem?_append_left hlt] at h
        rw [List.getElem?_append_left hlt]
        exact h
      · have hieq : i = init.length := by omega
        subst hieq
        rw [List.getElem?_concat_length] at h
        exact absurd (Option.some.inj h ▸ hc.2) hne
    · have hc' : w0.start = 0 ∨ w0.«end» ≠ 0 := by
        by_contra hcon
        push_neg at hcon
        exact hc ⟨hcon.1, hcon.2⟩
      rw [stopWorkLogging_closed t now init w0 hcat hc']
      exact endsPreserved_refl _

theorem beginTask_endsPreserved (cid : Option Nat) (now : Nat) (t : TaskItem) :
    endsPreserved t.logs (beginTask cid now t).logs := by
  unfold beginTask
  split
  · split
    · exact endsPreserved_append _ _
    · exact endsPreserved_refl _
  · exact endsPreserved_refl _

theorem checkTask_endsPreserved (cid : Option Nat) (now : Nat) (t : TaskItem) :
    endsPreserved t.logs (checkTask cid now t).logs := by
  unfold checkTask
  split
  · split
    · exact endsPreserved_refl _
    · exact stopWorkLogging_endsPreserved { t with status := TaskStatus.DONE } now
  · exact endsPreserved_refl _

theorem flagTask_endsPreserved (cid : Option Nat) (now : Nat) (t : TaskItem) :
    endsPreserved t.logs (flagTask cid now t).logs := by
  unfold flagTask
  split
  · exact stopWorkLogging_endsPreserved ⟨t.id, t.tag, t.title, (if t.status = TaskStatus.FLAG then TaskStatus.WAIT else TaskStatus.FLAG), t.logs⟩ now
  · exact endsPreserved_refl _

theorem stopTask_endsPreserved (cid : Option Nat) (now : Nat) (t : TaskItem) :
    endsPreserved t.logs (stopTask cid now t).logs := by
  unfold stopTask
  split
  · split
    · exact stopWorkLogging_endsPreserved { t with status := TaskStatus.WAIT } now
    · exact endsPreserved_refl _
  · exact endsPreserved_refl _

theorem stopWorkLogging_allClosed (u : TaskItem) (now : Nat) (hpos : 0 < now)
    (Hstart : ∀ l ∈ u.logs, 0 < l.start) (Hclosed : ∀ l ∈ u.logs.dropLast, l.«end» ≠ 0) :
    ∀ l ∈ (stopWorkLogging u now).logs, 0 < l.start ∧ l.«end» ≠ 0 := by
  rcases List.eq_nil_or_concat u.logs with hnil | ⟨init, w0, hcat⟩
  · rw [stopWorkLogging_logs_nil u now hnil]
    intro l hl
    rw [List.mem_singleton] at hl
    subst hl
    exact ⟨hpos, by show now ≠ 0; omega⟩
  · rw [List.concat_eq_append] at hcat
    have hw0 : w0 ∈ u.logs := by
      rw [hcat]
      exact List.mem_append_right _ (List.mem_singleton_self w0)
    by_cases hc : w0.start ≠ 0 ∧ w0.«end» = 0
    · rw [stopWorkLogging_logs_open u now init w0 hcat hc.1 hc.2]
      intro l hl
      rcases List.mem_append.mp hl with hl | hl
      · have hdl : l ∈ u.logs.dropLast := by
          rw [hcat, List.dropLast_concat]
          exact hl
        have hml : l ∈ u.logs := by
          rw [hcat]
          exact List.mem_append_left _ hl
        exact ⟨Hstart l hml, Hclosed l hdl⟩
      · rw [List.mem_singleton] at hl
        subst hl
        exact ⟨Hstart w0 hw0, by show now ≠ 0; omega⟩
    · have hc' : w0.start = 0 ∨ w0.«end» ≠ 0 := by
        by_contra hcon
        push_neg at hcon
        exact hc ⟨hcon.1, hcon.2⟩
      rw [stopWorkLogging_closed u now init w0 hcat hc']
      intro l hl
      refine ⟨Hstart l hl, ?_⟩
      rw [hcat] at hl
      rcases List.mem_append.mp hl with hl | hl
      · apply Hclosed
        rw [hcat, List.dropLast_concat]
        exact hl
      · rw [List.mem_singleton] at hl
        rw [hl]
        rcases hc' with hc' | hc'
        · have h1 := Hstart w0 hw0
          omega
        · exact hc'

theorem InvTask_stopWorkLogging (u : TaskItem) (now : Nat) (hpos : 0 < now)
    (Hstart : ∀ l ∈ u.logs, 0 < l.start) (Hclosed : ∀ l ∈ u.logs.dropLast, l.«end» ≠ 0) :
    InvTask (stopWorkLogging u now) := by
  have hac := stopWorkLogging_allClosed u now hpos Hstart Hclosed
  refine ⟨fun l hl => (hac l hl).1, fun l hl => (hac l ((List.dropLast_sublist _).subset hl)).2, ?_⟩
  rintro ⟨l, hl, he⟩
  exact absurd he (hac l hl).2

theorem InvTask_beginTask (cid : Option Nat) (now : Nat) (t : TaskItem)
    (h : InvTask t) (hpos : 0 < now) : InvTask (beginTask cid now t) := by
  unfold beginTask
  split
  · split
    · rename_i hstat
      obtain ⟨h1, h2, h3⟩ := h
      have hall : ∀ l ∈ t.logs, l.«end» ≠ 0 := by
        intro l hl
        by_contra he
        exact hstat (h3 ⟨l, hl, he⟩)
      refine ⟨?_, ?_, ?_⟩
      · intro l hl
        rcases List.mem_append.mp hl with hl | hl
        · exact h1 l hl
        · rw [List.mem_singleton] at hl
          subst hl
          exact hpos
      · intro l hl
        rw [List.dropLast_concat] at hl
        exact hall l hl
      · intro _
        rfl
    · exact h
  · exact h

theorem InvTask_checkTask (cid : Option Nat) (now : Nat) (t : TaskItem)
    (h : InvTask t) (hpos : 0 < now) : InvTask (checkTask cid now t) := by
  unfold checkTask
  split
  · split
    · rename_i hd
      obtain ⟨h1, h2, h3⟩ := h
      exact ⟨h1, h2, fun hopen => absurd (hd.symm.trans (h3 hopen)) (by decide)⟩
    · exact InvTask_stopWorkLogging { t with status := TaskStatus.DONE } now hpos h.1 h.2.1
  · exact h

theorem InvTask_flagTask (cid : Option Nat) (now : Nat) (t : TaskItem)
    (h : InvTask t) (hpos : 0 < now) : InvTask (flagTask cid now t) := by
  unfold flagTask
  split
  · exact InvTask_stopWorkLogging ⟨t.id, t.tag, t.title, (if t.status = TaskStatus.FLAG then TaskStatus.WAIT else TaskStatus.FLAG), t.logs⟩ now hpos h.1 h.2.1
  · exact h

theorem InvTask_stopTask (cid : Option Nat) (now : Nat) (t : TaskItem)
    (h : InvTask t) (hpos : 0 < now) : InvTask (stopTask cid now t) := by
  unfold stopTask
  split
  · split
    · exact InvTask_stopWorkLogging { t with status := TaskStatus.WAIT } now hpos h.1 h.2.1
    · exact h
  · exact h

theorem InvTask_moveTask (cid : Option Nat) (ctag : Option String) (t : TaskItem)
    (h : InvTask t) : InvTask (moveTask cid ctag t) := by
  unfold moveTask
  split
  · exact h
  · exact h

theorem InvTask_editTask (cid : Option Nat) (title : String) (t : TaskItem)
    (h : InvTask t) : InvTask (editTask cid title t) := by
  unfold editTask
  split
  · exact h
  · exact h

theorem openCount_le_one (t : TaskItem) (h : ∀ l ∈ t.logs.dropLast, l.«end» ≠ 0) :
    openCount t ≤ 1 := by
  unfold openCount
  rcases List.eq_nil_or_concat t.logs with hnil | ⟨init, w0, hcat⟩
  · rw [hnil]
    decide
  · rw [List.concat_eq_append] at hcat
    rw [hcat, List.filter_append]
    have hini : init.filter (fun l => l.«end» == 0) = [] := by
      rw [List.filter_eq_nil_iff]
      intro l hl
      have : l.«end» ≠ 0 := by
        apply h
        rw [hcat, List.dropLast_concat]
        exact hl
      simpa using this
    rw [hini, List.nil_append]
    exact List.length_filter_le _ _

theorem applyVerb_task_eq (s : State) (c : Command) (now : Nat) :
    applyVerb s c now "task" =
      (match c.text with
       | some task =>
         if task.isEmpty then s
         else { s with tasks := s.tasks ++
             [⟨nextIdOf s.tasks + 1, taskTagOf c.tag, task, TaskStatus.WAIT, []⟩] }
       | none => s) := rfl

theorem applyVerb_e_eq (s : State) (c : Command) (now : Nat) :
    applyVerb s c now "e" = applyVerb s c now "edit" := rfl

theorem applyVerb_edit_eq (s : State) (c : Command) (now : Nat) :
    applyVerb s c now "edit" =
      (match c.text with
       | some task =>
         if task.isEmpty then s
         else { s with tasks := s.tasks.map (editTask c.id task) }
       | none => s) := rfl

theorem InvState_applyCommand (s : State) (c : Command) (now : Nat) (hpos : 0 < now)
    (h : InvState s) : InvState (applyCommand s c now) := by
  have hmap : ∀ (f : TaskItem → TaskItem), (∀ t, InvTask t → InvTask (f t)) →
      InvState { s with tasks := s.tasks.map f } := by
    intro f hf t' ht'
    obtain ⟨t, ht, rfl⟩ := List.mem_map.mp ht'
    exact hf t (h t ht)
  have hdel : InvState { s with tasks := s.tasks.filter (fun t => some t.id != c.id) } := by
    intro t' ht'
    exact h t' (List.mem_of_mem_filter ht')
  have htask : InvState (applyVerb s c now "task") := by
    rw [applyVerb_task_eq]
    split
    · split
      · exact h
      · intro t' ht'
        rcases List.mem_append.mp ht' with ht' | ht'
        · exact h t' ht'
        · rw [List.mem_singleton] at ht'
          subst ht'
          refine ⟨?_, ?_, ?_⟩
          · intro l hl
            simp at hl
          · intro l hl
            simp at hl
          · rintro ⟨l, hl, _⟩
            simp at hl
    · exact h
  have hedit : InvState (applyVerb s c now "edit") := by
    rw [applyVerb_edit_eq]
    split
    · split
      · exact h
      · exact hmap _ (fun t ht => InvTask_editTask _ _ t ht)
    · exact h
  rw [applyCommand]
  unfold applyVerb
  split
  · exact hmap _ (fun t ht => InvTask_moveTask _ _ t ht)
  · exact hmap _ (fun t ht => InvTask_moveTask _ _ t ht)
  · exact hmap _ (fun t ht => InvTask_beginTask _ _ t ht hpos)
  · exact hmap _ (fun t ht => InvTask_beginTask _ _ t ht hpos)
  · exact hmap _ (fun t ht => InvTask_checkTask _ _ t ht hpos)
  · exact hmap _ (fun t ht => InvTask_checkTask _ _ t ht hpos)
  · exact hdel
  · exact hdel
  · exact hmap _ (fun t ht => InvTask_flagTask _ _ t ht hpos)
  · exact hmap _ (fun t ht => InvTask_flagTask _ _ t ht hpos)
  · exact hmap _ (fun t ht => InvTask_stopTask _ _ t ht hpos)
  · exact hmap _ (fun t ht => InvTask_stopTask _ _ t ht hpos)
  · exact htask
  · exact htask
  · exact hedit
  · exact hedit
  · exact h
  · exact h
  · exact h
  · exact h

theorem InvState_applyInput (s : State) (input : String) (now : Nat) (hpos : 0 < now)
    (h : InvState s) : InvState (applyInput s input now) := by
  unfold applyInput
  split
  · exact InvState_applyCommand _ _ _ hpos h
  · exact h

theorem InvState_runInputs (inputs : List (String × Nat)) (s0 : State) (h0 : InvState s0)
    (hl : ∀ p ∈ inputs, 0 < p.2) : InvState (runInputs s0 inputs) := by
  induction inputs generalizing s0 with
  | nil => exact h0
  | cons p ps ih =>
    exact ih (applyInput s0 p.1 p.2)
      (InvState_applyInput _ _ _ (hl p (List.mem_cons_self p ps)) h0)
      (fun q hq => hl q (List.mem_cons_of_mem p hq))

theorem InvState_default : InvState defaultState := by
  intro t ht
  simp [defaultState] at ht

theorem Reachable_InvState (s : State) (h : Reachable s) : InvState s := by
  obtain ⟨inputs, hpos, rfl⟩ := h
  exact InvState_runInputs inputs defaultState InvState_default hpos

theorem cmd4_step (s : State) (c : Command) (n : Nat)
    (hverb : jsToLower c.command ∈
      (["b", "begin", "st", "stop", "c", "check", "fl", "flag"] : List String)) :
    ∃ f : TaskItem → TaskItem,
      applyCommand s c n = { s with tasks := s.tasks.map f } ∧
      (∀ t, endsPreserved t.logs (f t).logs) := by
  simp only [List.mem_cons, List.not_mem_nil, or_false] at hverb
  rcases hverb with hv | hv | hv | hv | hv | hv | hv | hv
  · exact ⟨beginTask c.id n, by rw [applyCommand_eq_applyVerb s c n _ hv, applyVerb_b],
      beginTask_endsPreserved c.id n⟩
  · exact ⟨beginTask c.id n, by rw [applyCommand_eq_applyVerb s c n _ hv, applyVerb_begin],
      beginTask_endsPreserved c.id n⟩
  · exact ⟨stopTask c.id n, by rw [applyCommand_eq_applyVerb s c n _ hv, applyVerb_st],
      stopTask_endsPreserved c.id n⟩
  · exact ⟨stopTask c.id n, by rw [applyCommand_eq_applyVerb s c n _ hv, applyVerb_stop],
      stopTask_endsPreserved c.id n⟩
  · exact ⟨checkTask c.id n, by rw [applyCommand_eq_applyVerb s c n _ hv, applyVerb_c],
      checkTask_endsPreserved c.id n⟩
  · exact ⟨checkTask c.id n, by rw [applyCommand_eq_applyVerb s c n _ hv, applyVerb_check],
      checkTask_endsPreserved c.id n⟩
  · exact ⟨flagTask c.id n, by rw [applyCommand_eq_applyVerb s c n _ hv, applyVerb_fl],
      flagTask_endsPreserved c.id n⟩
  · exact ⟨flagTask c.id n, by rw [applyCommand_eq_applyVerb s c n _ hv, applyVerb_flag],
      flagTask_endsPreserved c.id n⟩

theorem runCmds_bcfs (cs : List (Command × Nat)) (s : State) (hinv : InvState s)
    (hcs : ∀ p ∈ cs, jsToLower p.1.command ∈
      (["b", "begin", "st", "stop", "c", "check", "fl", "flag"] : List String) ∧ 0 < p.2) :
    InvState (runCmds s cs) ∧
    ∀ (i : Nat) (t t' : TaskItem), s.tasks[i]? = some t →
      (runCmds s cs).tasks[i]? = some t' → endsPreserved t.logs t'.logs := by
  induction cs generalizing s with
  | nil =>
    refine ⟨hinv, ?_⟩
    intro i t t' h1 h2
    simp only [runCmds, List.foldl_nil] at h2
    rw [h1] at h2
    injection h2 with h3
    subst h3
    exact endsPreserved_refl _
  | cons p ps ih =>
    obtain ⟨hv, hn⟩ := hcs p (List.mem_cons_self p ps)
    obtain ⟨f, hf, hep⟩ := cmd4_step s p.1 p.2 hv
    have hstep : runCmds s (p :: ps) = runCmds (applyCommand s p.1 p.2) ps := rfl
    have hinv' : InvState (applyCommand s p.1 p.2) := InvState_applyCommand _ _ _ hn hinv
    obtain ⟨ih1, ih2⟩ := ih (applyCommand s p.1 p.2) hinv'
      (fun q hq => hcs q (List.mem_cons_of_mem p hq))
    refine ⟨by rw [hstep]; exact ih1, ?_⟩
    intro i t t' h1 h2
    have hmid : (applyCommand s p.1 p.2).tasks[i]? = some (f t) := by
      rw [hf]
      simp [List.getElem?_map, h1]
    rw [hstep] at h2
    exact endsPreserved_trans (hep t) (ih2 i (f t) t' hmid h2)

/-- C2: from any reachable state, after any sequence of begin/stop/check/flag
commands at positive timestamps, every task has at most one open (zero-`end`)
worklog, and any worklog that was closed (nonzero `end`) in the starting
state is still present, unchanged, at its position after the whole sequence:
a nonzero `end` is never modified by a later command. -/
theorem C2_worklog_open_unique_and_ends_frozen (s : State) (hreach : Reachable s)
    (cs : List (Command × Nat))
    (hcs : ∀ p ∈ cs, jsToLower p.1.command ∈
      (["b", "begin", "st", "stop", "c", "check", "fl", "flag"] : List String) ∧ 0 < p.2) :
    (∀ t ∈ (runCmds s cs).tasks, openCount t ≤ 1) ∧
    (∀ (i : Nat) (t t' : TaskItem), s.tasks[i]? = some t →
      (runCmds s cs).tasks[i]? = some t' → endsPreserved t.logs t'.logs) := by
  have hinv := Reachable_InvState s hreach
  obtain ⟨hinv', hep⟩ := runCmds_bcfs cs s hinv hcs
  exact ⟨fun t ht => openCount_le_one t (hinv' t ht).2.1, hep⟩

theorem C2_worklog_open_unique_and_ends_frozen_witness :
    (∀ t ∈ (runCmds defaultState [(⟨"b", none, none, some 1⟩, 5)]).tasks, openCount t ≤ 1) ∧
    (∀ (i : Nat) (t t' : TaskItem), defaultState.tasks[i]? = some t →
      (runCmds defaultState [(⟨"b", none, none, some 1⟩, 5)]).tasks[i]? = some t' →
      endsPreserved t.logs t'.logs) := by
  apply C2_worklog_open_unique_and_ends_frozen defaultState
  · exact ⟨[], fun p hp => absurd hp (List.not_mem_nil p), rfl⟩
  · intro p hp
    rcases List.mem_cons.mp hp with rfl | hp
    · exact ⟨by decide, by decide⟩
    · cases hp

/-! ## C8: today view -/

theorem taskTodayLogs_eq_spec (now : Nat) (t : TaskItem)
    (hstart : ∀ l ∈ t.logs, l.start ≠ 0)
    (hdone : t.status = TaskStatus.DONE → ∀ l ∈ t.logs, l.«end» ≠ 0) :
    taskTodayLogs now t = t.logs.enum.filterMap (fun p =>
      if absDiff now p.2.start ≤ 86400000 then
        some ⟨t.title, p.2.start, p.2.«end»,
          decide (p.1 = t.logs.length - 1 ∧ t.status = TaskStatus.DONE)⟩
      else none) := by
  unfold taskTodayLogs
  apply List.filterMap_congr
  intro p hp
  rcases p with ⟨i, l⟩
  obtain ⟨hilen, hx⟩ := List.mem_enum hp
  have hl : l ∈ t.logs := by
    rw [hx]
    exact List.getElem_mem _
  have hs := hstart l hl
  by_cases hd : absDiff now l.start ≤ 86400000
  · rw [if_pos ⟨hs, by simp only [isSameDay, decide_eq_true_eq]; exact hd⟩, if_pos hd]
    have hdec : decide (l.«end» ≠ 0 ∧ i = t.logs.length - 1 ∧ t.status = TaskStatus.DONE) =
        decide (i = t.logs.length - 1 ∧ t.status = TaskStatus.DONE) := by
      rw [decide_eq_decide]
      constructor
      · rintro ⟨_, h2, h3⟩
        exact ⟨h2, h3⟩
      · rintro ⟨h2, h3⟩
        exact ⟨hdone h3 l hl, h2, h3⟩
    rw [hdec]
  · rw [if_neg ?_, if_neg hd]
    rintro ⟨_, hc⟩
    simp only [isSameDay, decide_eq_true_eq] at hc
    exact hd hc

/-- C8: on any reachable state, the today-activity list is exactly the
spec-side computation `todaySpec` — per task, each worklog whose `start` is
within 24 hours (absolute difference, so a 23h-old start is in and a 25h-old
start is out) of `now()`, flattened in task order, stably sorted ascending by
`start`, and each entry is marked finished iff it is the task's final log and
the task is DONE — and the resulting list is sorted ascending by `start`. -/
theorem C8_today_matches_spec (now : Nat) (s : State) (hreach : Reachable s) :
    todayList now s = todaySpec now s ∧
    List.Pairwise (fun a b : TodayEntry => a.start ≤ b.start) (todayList now s) := by
  have hinv := Reachable_InvState s hreach
  have hstart : ∀ t ∈ s.tasks, ∀ l ∈ t.logs, l.start ≠ 0 := by
    intro t ht l hl
    have h1 := (hinv t ht).1 l hl
    omega
  have hdone : ∀ t ∈ s.tasks, t.status = TaskStatus.DONE → ∀ l ∈ t.logs, l.«end» ≠ 0 := by
    intro t ht hD l hl
    by_contra he
    have hwip := (hinv t ht).2.2 ⟨l, hl, he⟩
    exact absurd (hD.symm.trans hwip) (by decide)
  have hent : todayUnsorted now s = todaySpecEntries now s := by
    unfold todayUnsorted todaySpecEntries
    apply List.flatMap_congr
    intro t ht
    exact taskTodayLogs_eq_spec now t (hstart t ht) (hdone t ht)
  constructor
  · unfold todayList todaySpec
    rw [hent]
  · unfold todayList
    refine (List.sorted_mergeSort ?_ ?_ (todayUnsorted now s)).imp ?_
    · intro a b c hab hbc
      simp only [decide_eq_true_eq] at *
      omega
    · intro a b
      simp only [Bool.or_eq_true, decide_eq_true_eq]
      omega
    · intro a b hab
      simpa using hab

theorem C8_today_matches_spec_witness :
    todayList 200000000
      (runInputs defaultState
        [("t a", 1), ("b 1", 110000000), ("st 1", 110000500),
         ("b 1", 117200000), ("st 1", 117200500)]) =
      todaySpec 200000000
        (runInputs defaultState
          [("t a", 1), ("b 1", 110000000), ("st 1", 110000500),
           ("b 1", 117200000), ("st 1", 117200500)]) ∧
    List.Pairwise (fun a b : TodayEntry => a.start ≤ b.start)
      (todayList 200000000
        (runInputs defaultState
          [("t a", 1), ("b 1", 110000000), ("st 1", 110000500),
           ("b 1", 117200000), ("st 1", 117200500)])) := by
  apply C8_today_matches_spec
  exact ⟨[("t a", 1), ("b 1", 110000000), ("st 1", 110000500),
    ("b 1", 117200000), ("st 1", 117200500)], by decide, rfl⟩

/-! ## Parser computation lemmas -/

theorem stripCI_self (p r : List Char) : stripCI p (p ++ r) = some (p, r) := by
  induction p with
  | nil => rfl
  | cons c cs ih =>
    show stripCI (c :: cs) (c :: (cs ++ r)) = some (c :: cs, r)
    unfold stripCI
    rw [if_pos rfl, ih]

theorem stripCI_cons_ne (p : Char) (ps : List Char) (c : Char) (cs : List Char)
    (h : ¬ c.toLower = p.toLower) : stripCI (p :: ps) (c :: cs) = none := by
  unfold stripCI
  rw [if_neg h]

theorem stripCI_cons_cons (p : Char) (ps : List Char) (c : Char) (cs : List Char)
    (h : c.toLower = p.toLower) :
    stripCI (p :: ps) (c :: cs) = (stripCI ps cs).map (fun pr => (c :: pr.1, pr.2)) := by
  have hstep : stripCI (p :: ps) (c :: cs) =
      (if c.toLower = p.toLower then
        (match stripCI ps cs with
         | some (m, r) => some (c :: m, r)
         | none => none)
       else none) := rfl
  rw [hstep, if_pos h]
  cases hs : stripCI ps cs with
  | none => rfl
  | some pr =>
    obtain ⟨m, r⟩ := pr
    rfl

theorem tryVerbs_cons {α : Type} (p : List Char) (ps : List (List Char))
    (k : List Char → List Char → Option α) (s : List Char) :
    tryVerbs (p :: ps) k s =
      (match stripCI p s with
       | some (verb, rest) =>
         (match k verb rest with
          | some r => some r
          | none => tryVerbs ps k s)
       | none => tryVerbs ps k s) := rfl

theorem tryVerbs_cons_none {α : Type} (p : List Char) (ps : List (List Char))
    (k : List Char → List Char → Option α) (s : List Char) (h : stripCI p s = none) :
    tryVerbs (p :: ps) k s = tryVerbs ps k s := by
  rw [tryVerbs_cons, h]

theorem tryVerbs_cons_some_none {α : Type} (p : List Char) (ps : List (List Char))
    (k : List Char → List Char → Option α) (s verb rest : List Char)
    (h : stripCI p s = some (verb, rest)) (hk : k verb rest = none) :
    tryVerbs (p :: ps) k s = tryVerbs ps k s := by
  rw [tryVerbs_cons, h]
  show (match k verb rest with
        | some r => some r
        | none => tryVerbs ps k s) = tryVerbs ps k s
  rw [hk]

theorem tryVerbs_cons_some_some {α : Type} (p : List Char) (ps : List (List Char))
    (k : List Char → List Char → Option α) (s verb rest : List Char) (res : α)
    (h : stripCI p s = some (verb, rest)) (hk : k verb rest = some res) :
    tryVerbs (p :: ps) k s = some res := by
  rw [tryVerbs_cons, h]
  show (match k verb rest with
        | some r => some r
        | none => tryVerbs ps k s) = some res
  rw [hk]

theorem jsWhitespace_facts (c : Char) (h : jsWhitespace c = true) :
    c.toLower = c ∧ c.isAlphanum = false ∧ c.isDigit = false := by
  have hmem : c ∈ jsWhitespaceList := by
    have h' : jsWhitespaceList.contains c = true := h
    simpa using h'
  fin_cases hmem <;> exact ⟨rfl, rfl, rfl⟩

theorem jsWhitespace_ne_toLower (c p : Char) (h : jsWhitespace c = true)
    (hp : (p.toLower).isAlphanum = true) : ¬ c.toLower = p.toLower := by
  intro he
  obtain ⟨h1, h2, _⟩ := jsWhitespace_facts c h
  rw [h1] at he
  rw [he] at h2
  rw [h2] at hp
  cases hp

theorem takeDigits_split (ds rest : List Char)
    (hdig : ∀ ch ∈ ds, ch.isDigit = true)
    (hrest : ∀ ch, rest.head? = some ch → ch.isDigit = false) :
    takeDigits (ds ++ rest) = (ds, rest) := by
  induction ds with
  | nil =>
    cases rest with
    | nil => rfl
    | cons c cs =>
      show takeDigits (c :: cs) = ([], c :: cs)
      unfold takeDigits
      rw [if_neg (by simp [hrest c rfl])]
  | cons d ds' ih =>
    have ih' := ih (fun ch hch => hdig ch (List.mem_cons_of_mem d hch))
    show takeDigits (d :: (ds' ++ rest)) = (d :: ds', rest)
    unfold takeDigits
    rw [if_pos (hdig d (List.mem_cons_self d ds')), ih']

theorem idTail_cons (verb : List Char) (c : Char) (rest2 : List Char) :
    idTail verb (c :: rest2) =
      (if jsWhitespace c then
        (match takeDigits rest2 with
         | ([], _) => none
         | (ds, _) => some ⟨verb, ds⟩)
       else none) := rfl

theorem idTail_exact (verb : List Char) (ws : Char) (ds rest : List Char)
    (hws : jsWhitespace ws = true) (hne : ds ≠ [])
    (hdig : ∀ ch ∈ ds, ch.isDigit = true)
    (hrest : ∀ ch, rest.head? = some ch → ch.isDigit = false) :
    idTail verb (ws :: (ds ++ rest)) = some ⟨verb, ds⟩ := by
  rw [idTail_cons, if_pos hws, takeDigits_split ds rest hdig hrest]
  obtain ⟨d, ds', rfl⟩ := List.exists_cons_of_ne_nil hne
  rfl

/-! ## C10: trailing characters after the id are ignored -/

/-- C10: for each single-id verb (c/check, b/begin, d/delete, fl/flag,
st/stop), an input of the form verb, one whitespace character, a non-empty
digit run, then arbitrary trailing characters (not starting with a further
digit, i.e. the digit run is maximal) parses to that verb's command with the
id read from the digit run; the trailing characters do not appear in the
result. -/
theorem C10_id_verbs_ignore_trailing :
    ∀ v ∈ (["c", "check", "b", "begin", "d", "delete", "fl", "flag", "st", "stop"] :
      List String),
    ∀ (ws : Char), jsWhitespace ws = true →
    ∀ (ds : List Char), ds ≠ [] → (∀ ch ∈ ds, ch.isDigit = true) →
    ∀ (rest : List Char), (∀ ch, rest.head? = some ch → ch.isDigit = false) →
    parseCommand (String.mk (v.data ++ ws :: (ds ++ rest))) =
      some { command := v, tag := none, text := none, id := some (parseInt ds) } := by
  intro v hv ws hws ds hne hdig rest hrest
  fin_cases hv
  · -- v = "c"
    have hlong : stripCI "check".data ("c".data ++ ws :: (ds ++ rest)) = none := by
      show stripCI ('c' :: 'h' :: 'e' :: 'c' :: 'k' :: []) ('c' :: ws :: (ds ++ rest)) = none
      rw [stripCI_cons_cons 'c' _ 'c' _ rfl]
      rw [stripCI_cons_ne 'h' _ ws _ (jsWhitespace_ne_toLower ws 'h' hws (by decide))]
      rfl
    have hP : parseCheckCommand ("c".data ++ ws :: (ds ++ rest)) = some ⟨"c".data, ds⟩ := by
      unfold parseCheckCommand
      rw [tryVerbs_cons_none _ _ _ _ hlong]
      exact tryVerbs_cons_some_some _ _ _ _ _ _ _
        (stripCI_self "c".data (ws :: (ds ++ rest)))
        (idTail_exact "c".data ws ds rest hws hne hdig hrest)
    have hoth : matchOtherId ("c".data ++ ws :: (ds ++ rest)) = some ⟨"c".data, ds⟩ := by
      unfold matchOtherId
      rw [hP]
    unfold parseCommand
    rw [show (String.mk ("c".data ++ ws :: (ds ++ rest))).data = "c".data ++ ws :: (ds ++ rest) from rfl]
    rw [show parseTaskCommand ("c".data ++ ws :: (ds ++ rest)) = none from rfl]
    rw [show parseEditCommand ("c".data ++ ws :: (ds ++ rest)) = none from rfl]
    rw [show parseMoveCommand ("c".data ++ ws :: (ds ++ rest)) = none from rfl]
    rw [hoth]
  · -- v = "check"
    have hP : parseCheckCommand ("check".data ++ ws :: (ds ++ rest)) = some ⟨"check".data, ds⟩ := by
      unfold parseCheckCommand
      exact tryVerbs_cons_some_some _ _ _ _ _ _ _
        (stripCI_self "check".data (ws :: (ds ++ rest)))
        (idTail_exact "check".data ws ds rest hws hne hdig hrest)
    have hoth : matchOtherId ("check".data ++ ws :: (ds ++ rest)) = some ⟨"check".data, ds⟩ := by
      unfold matchOtherId
      rw [hP]
    unfold parseCommand
    rw [show (String.mk ("check".data ++ ws :: (ds ++ rest))).data = "check".data ++ ws :: (ds ++ rest) from rfl]
    rw [show parseTaskCommand ("check".data ++ ws :: (ds ++ rest)) = none from rfl]
    rw [show parseEditCommand ("check".data ++ ws :: (ds ++ rest)) = none from rfl]
    rw [show parseMoveCommand ("check".data ++ ws :: (ds ++ rest)) = none from rfl]
    rw [hoth]
  · -- v = "b"
    have hlong : stripCI "begin".data ("b".data ++ ws :: (ds ++ rest)) = none := by
      show stripCI ('b' :: 'e' :: 'g' :: 'i' :: 'n' :: []) ('b' :: ws :: (ds ++ rest)) = none
      rw [stripCI_cons_cons 'b' _ 'b' _ rfl]
      rw [stripCI_cons_ne 'e' _ ws _ (jsWhitespace_ne_toLower ws 'e' hws (by decide))]
      rfl
    have hP : parseBeginCommand ("b".data ++ ws :: (ds ++ rest)) = some ⟨"b".data, ds⟩ := by
      unfold parseBeginCommand
      rw [tryVerbs_cons_none _ _ _ _ hlong]
      exact tryVerbs_cons_some_some _ _ _ _ _ _ _
        (stripCI_self "b".data (ws :: (ds ++ rest)))
        (idTail_exact "b".data ws ds rest hws hne hdig hrest)
    have hoth : matchOtherId ("b".data ++ ws :: (ds ++ rest)) = some ⟨"b".data, ds⟩ := by
      unfold matchOtherId
      rw [show parseCheckCommand ("b".data ++ ws :: (ds ++ rest)) = none from rfl]
      rw [hP]
    unfold parseCommand
    rw [show (String.mk ("b".data ++ ws :: (ds ++ rest))).data = "b".data ++ ws :: (ds ++ rest) from rfl]
    rw [show parseTaskCommand ("b".data ++ ws :: (ds ++ rest)) = none from rfl]
    rw [show parseEditCommand ("b".data ++ ws :: (ds ++ rest)) = none from rfl]
    rw [show parseMoveCommand ("b".data ++ ws :: (ds ++ rest)) = none from rfl]
    rw [hoth]
  · -- v = "begin"
    have hP : parseBeginCommand ("begin".data ++ ws :: (ds ++ rest)) = some ⟨"begin".data, ds⟩ := by
      unfold parseBeginCommand
      exact tryVerbs_cons_some_some _ _ _ _ _ _ _
        (stripCI_self "begin".data (ws :: (ds ++ rest)))
        (idTail_exact "begin".data ws ds rest hws hne hdig hrest)
    have hoth : matchOtherId ("begin".data ++ ws :: (ds ++ rest)) = some ⟨"begin".data, ds⟩ := by
      unfold matchOtherId
      rw [show parseCheckCommand ("begin".data ++ ws :: (ds ++ rest)) = none from rfl]
      rw [hP]
    unfold parseCommand
    rw [show (String.mk ("begin".data ++ ws :: (ds ++ rest))).data = "begin".data ++ ws :: (ds ++ rest) from rfl]
    rw [show parseTaskCommand ("begin".data ++ ws :: (ds ++ rest)) = none from rfl]
    rw [show parseEditCommand ("begin".data ++ ws :: (ds ++ rest)) = none from rfl]
    rw [show parseMoveCommand ("begin".data ++ ws :: (ds ++ rest)) = none from rfl]
    rw [hoth]
  · -- v = "d"
    have hlong : stripCI "delete".data ("d".data ++ ws :: (ds ++ rest)) = none := by
      show stripCI ('d' :: 'e' :: 'l' :: 'e' :: 't' :: 'e' :: []) ('d' :: ws :: (ds ++ rest)) = none
      rw [stripCI_cons_cons 'd' _ 'd' _ rfl]
      rw [stripCI_cons_ne 'e' _ ws _ (jsWhitespace_ne_toLower ws 'e' hws (by decide))]
      rfl
    have hP : parseDeleteCommand ("d".data ++ ws :: (ds ++ rest)) = some ⟨"d".data, ds⟩ := by
      unfold parseDeleteCommand
      rw [tryVerbs_cons_none _ _ _ _ hlong]
      exact tryVerbs_cons_some_some _ _ _ _ _ _ _
        (stripCI_self "d".data (ws :: (ds ++ rest)))
        (idTail_exact "d".data ws ds rest hws hne hdig hrest)
    have hoth : matchOtherId ("d".data ++ ws :: (ds ++ rest)) = some ⟨"d".data, ds⟩ := by
      unfold matchOtherId
      rw [show parseCheckCommand ("d".data ++ ws :: (ds ++ rest)) = none from rfl]
      rw [show parseBeginCommand ("d".data ++ ws :: (ds ++ rest)) = none from rfl]
      rw [hP]
    unfold parseCommand
    rw [show (String.mk ("d".data ++ ws :: (ds ++ rest))).data = "d".data ++ ws :: (ds ++ rest) from rfl]
    rw [show parseTaskCommand ("d".data ++ ws :: (ds ++ rest)) = none from rfl]
    rw [show parseEditCommand ("d".data ++ ws :: (ds ++ rest)) = none from rfl]
    rw [show parseMoveCommand ("d".data ++ ws :: (ds ++ rest)) = none from rfl]
    rw [hoth]
  · -- v = "delete"
    have hP : parseDeleteCommand ("delete".data ++ ws :: (ds ++ rest)) = some ⟨"delete".data, ds⟩ := by
      unfold parseDeleteCommand
      exact tryVerbs_cons_some_some _ _ _ _ _ _ _
        (stripCI_self "delete".data (ws :: (ds ++ rest)))
        (idTail_exact "delete".data ws ds rest hws hne hdig hrest)
    have hoth : matchOtherId ("delete".data ++ ws :: (ds ++ rest)) = some ⟨"delete".data, ds⟩ := by
      unfold matchOtherId
      rw [show parseCheckCommand ("delete".data ++ ws :: (ds ++ rest)) = none from rfl]
      rw [show parseBeginCommand ("delete".data ++ ws :: (ds ++ rest)) = none from rfl]
      rw [hP]
    unfold parseCommand
    rw [show (String.mk ("delete".data ++ ws :: (ds ++ rest))).data = "delete".data ++ ws :: (ds ++ rest) from rfl]
    rw [show parseTaskCommand ("delete".data ++ ws :: (ds ++ rest)) = none from rfl]
    rw [show parseEditCommand ("delete".data ++ ws :: (ds ++ rest)) = none from rfl]
    rw [show parseMoveCommand ("delete".data ++ ws :: (ds ++ rest)) = none from rfl]
    rw [hoth]
  · -- v = "fl"
    have hlong : stripCI "flag".data ("fl".data ++ ws :: (ds ++ rest)) = none := by
      show stripCI ('f' :: 'l' :: 'a' :: 'g' :: []) ('f' :: 'l' :: ws :: (ds ++ rest)) = none
      rw [stripCI_cons_cons 'f' _ 'f' _ rfl]
      rw [stripCI_cons_cons 'l' _ 'l' _ rfl]
      rw [stripCI_cons_ne 'a' _ ws _ (jsWhitespace_ne_toLower ws 'a' hws (by decide))]
      rfl
    have hP : parseFlagCommand ("fl".data ++ ws :: (ds ++ rest)) = some ⟨"fl".data, ds⟩ := by
      unfold parseFlagCommand
      rw [tryVerbs_cons_none _ _ _ _ hlong]
      exact tryVerbs_cons_some_some _ _ _ _ _ _ _
        (stripCI_self "fl".data (ws :: (ds ++ rest)))
        (idTail_exact "fl".data ws ds rest hws hne hdig hrest)
    have hoth : matchOtherId ("fl".data ++ ws :: (ds ++ rest)) = some ⟨"fl".data, ds⟩ := by
      unfold matchOtherId
      rw [show parseCheckCommand ("fl".data ++ ws :: (ds ++ rest)) = none from rfl]
      rw [show parseBeginCommand ("fl".data ++ ws :: (ds ++ rest)) = none from rfl]
      rw [show parseDeleteCommand ("fl".data ++ ws :: (ds ++ rest)) = none from rfl]
      rw [hP]
    unfold parseCommand
    rw [show (String.mk ("fl".data ++ ws :: (ds ++ rest))).data = "fl".data ++ ws :: (ds ++ rest) from rfl]
    rw [show parseTaskCommand ("fl".data ++ ws :: (ds ++ rest)) = none from rfl]
    rw [show parseEditCommand ("fl".data ++ ws :: (ds ++ rest)) = none from rfl]
    rw [show parseMoveCommand ("fl".data ++ ws :: (ds ++ rest)) = none from rfl]
    rw [hoth]
  · -- v = "flag"
    have hP : parseFlagCommand ("flag".data ++ ws :: (ds ++ rest)) = some ⟨"flag".data, ds⟩ := by
      unfold parseFlagCommand
      exact tryVerbs_cons_some_some _ _ _ _ _ _ _
        (stripCI_self "flag".data (ws :: (ds ++ rest)))
        (idTail_exact "flag".data ws ds rest hws hne hdig hrest)
    have hoth : matchOtherId ("flag".data ++ ws :: (ds ++ rest)) = some ⟨"flag".data, ds⟩ := by
      unfold matchOtherId
      rw [show parseCheckCommand ("flag".data ++ ws :: (ds ++ rest)) = none from rfl]
      rw [show parseBeginCommand ("flag".data ++ ws :: (ds ++ rest)) = none from rfl]
      rw [show parseDeleteCommand ("flag".data ++ ws :: (ds ++ rest)) = none from rfl]
      rw [hP]
    unfold parseCommand
    rw [show (String.mk ("flag".data ++ ws :: (ds ++ rest))).data = "flag".data ++ ws :: (ds ++ rest) from rfl]
    rw [show parseTaskCommand ("flag".data ++ ws :: (ds ++ rest)) = none from rfl]
    rw [show parseEditCommand ("flag".data ++ ws :: (ds ++ rest)) = none from rfl]
    rw [show parseMoveCommand ("flag".data ++ ws :: (ds ++ rest)) = none from rfl]
    rw [hoth]
  · -- v = "st"
    have hlong : stripCI "stop".data ("st".data ++ ws :: (ds ++ rest)) = none := by
      show stripCI ('s' :: 't' :: 'o' :: 'p' :: []) ('s' :: 't' :: ws :: (ds ++ rest)) = none
      rw [stripCI_cons_cons 's' _ 's' _ rfl]
      rw [stripCI_cons_cons 't' _ 't' _ rfl]
      rw [stripCI_cons_ne 'o' _ ws _ (jsWhitespace_ne_toLower ws 'o' hws (by decide))]
      rfl
    have hP : parseStopCommand ("st".data ++ ws :: (ds ++ rest)) = some ⟨"st".data, ds⟩ := by
      unfold parseStopCommand
      rw [tryVerbs_cons_none _ _ _ _ hlong]
      exact tryVerbs_cons_some_some _ _ _ _ _ _ _
        (stripCI_self "st".data (ws :: (ds ++ rest)))
        (idTail_exact "st".data ws ds rest hws hne hdig hrest)
    have hoth : matchOtherId ("st".data ++ ws :: (ds ++ rest)) = some ⟨"st".data, ds⟩ := by
      unfold matchOtherId
      rw [show parseCheckCommand ("st".data ++ ws :: (ds ++ rest)) = none from rfl]
      rw [show parseBeginCommand ("st".data ++ ws :: (ds ++ rest)) = none from rfl]
      rw [show parseDeleteCommand ("st".data ++ ws :: (ds ++ rest)) = none from rfl]
      rw [show parseFlagCommand ("st".data ++ ws :: (ds ++ rest)) = none from rfl]
      rw [hP]
    unfold parseCommand
    rw [show (String.mk ("st".data ++ ws :: (ds ++ rest))).data = "st".data ++ ws :: (ds ++ rest) from rfl]
    rw [show parseTaskCommand ("st".data ++ ws :: (ds ++ rest)) = none from rfl]
    rw [show parseEditCommand ("st".data ++ ws :: (ds ++ rest)) = none from rfl]
    rw [show parseMoveCommand ("st".data ++ ws :: (ds ++ rest)) = none from rfl]
    rw [hoth]
  · -- v = "stop"
    have hP : parseStopCommand ("stop".data ++ ws :: (ds ++ rest)) = some ⟨"stop".data, ds⟩ := by
      unfold parseStopCommand
      exact tryVerbs_cons_some_some _ _ _ _ _ _ _
        (stripCI_self "stop".data (ws :: (ds ++ rest)))
        (idTail_exact "stop".data ws ds rest hws hne hdig hrest)
    have hoth : matchOtherId ("stop".data ++ ws :: (ds ++ rest)) = some ⟨"stop".data, ds⟩ := by
      unfold matchOtherId
      rw [show parseCheckCommand ("stop".data ++ ws :: (ds ++ rest)) = none from rfl]
      rw [show parseBeginCommand ("stop".data ++ ws :: (ds ++ rest)) = none from rfl]
      rw [show parseDeleteCommand ("stop".data ++ ws :: (ds ++ rest)) = none from rfl]
      rw [show parseFlagCommand ("stop".data ++ ws :: (ds ++ rest)) = none from rfl]
      rw [hP]
    unfold parseCommand
    rw [show (String.mk ("stop".data ++ ws :: (ds ++ rest))).data = "stop".data ++ ws :: (ds ++ rest) from rfl]
    rw [show parseTaskCommand ("stop".data ++ ws :: (ds ++ rest)) = none from rfl]
    rw [show parseEditCommand ("stop".data ++ ws :: (ds ++ rest)) = none from rfl]
    rw [show parseMoveCommand ("stop".data ++ ws :: (ds ++ rest)) = none from rfl]
    rw [hoth]

theorem C10_id_verbs_ignore_trailing_witness :
    parseCommand (String.mk ("c".data ++ ' ' :: (('1' :: '2' :: []) ++ ('x' :: 'y' :: [])))) =
      some { command := "c", tag := none, text := none,
             id := some (parseInt ('1' :: '2' :: [])) } := by
  apply C10_id_verbs_ignore_trailing "c" (by decide) ' ' (by decide)
    ('1' :: '2' :: []) (by decide) (by decide) ('x' :: 'y' :: [])
  intro ch hch
  injection hch with h
  rw [← h]
  decide

/-! ## C6: parser totality and well-formedness -/

theorem stripCI_verb (p : List Char) : ∀ (s m r : List Char), stripCI p s = some (m, r) →
    m.map Char.toLower = p.map Char.toLower := by
  induction p with
  | nil =>
    intro s m r h
    have h' : some (([] : List Char), s) = some (m, r) := h
    cases h'
    rfl
  | cons pc pcs ih =>
    intro s m r h
    cases s with
    | nil => exact Option.noConfusion h
    | cons c cs =>
      rw [show stripCI (pc :: pcs) (c :: cs) =
          (if c.toLower = pc.toLower then
            (match stripCI pcs cs with
             | some (m, r) => some (c :: m, r)
             | none => none)
           else none) from rfl] at h
      split at h
      · rename_i hcond
        split at h
        · rename_i m' r' heq
          cases h
          simp only [List.map_cons]
          rw [hcond, ih cs _ _ heq]
        · exact Option.noConfusion h
      · exact Option.noConfusion h

theorem tryVerbs_mem {α : Type} (pats : List (List Char))
    (k : List Char → List Char → Option α) (s : List Char) (res : α)
    (h : tryVerbs pats k s = some res) :
    ∃ p ∈ pats, ∃ verb rest, stripCI p s = some (verb, rest) ∧ k verb rest = some res := by
  induction pats with
  | nil => exact Option.noConfusion h
  | cons p ps ih =>
    rw [tryVerbs_cons] at h
    split at h
    · rename_i verb rest heq
      split at h
      · rename_i r hk
        cases h
        exact ⟨p, List.mem_cons_self p ps, verb, rest, heq, hk⟩
      · obtain ⟨q, hq, verb', rest', hs', hk'⟩ := ih h
        exact ⟨q, List.mem_cons_of_mem p hq, verb', rest', hs', hk'⟩
    · obtain ⟨q, hq, verb', rest', hs', hk'⟩ := ih h
      exact ⟨q, List.mem_cons_of_mem p hq, verb', rest', hs', hk'⟩

theorem taskTail_verb (verb rest : List Char) (m : TaskMatch)
    (h : taskTail verb rest = some m) : m.verb = verb := by
  unfold taskTail at h
  split at h
  · exact Option.noConfusion h
  · split at h
    · split at h
      · cases h
        rfl
      · cases h
        rfl
    · exact Option.noConfusion h

theorem editTail_verb (verb rest : List Char) (m : EditMatch)
    (h : editTail verb rest = some m) : m.verb = verb := by
  unfold editTail at h
  split at h
  · exact Option.noConfusion h
  · split at h
    · split at h
      · exact Option.noConfusion h
      · cases h
        rfl
    · exact Option.noConfusion h

theorem moveTail_verb (verb rest : List Char) (m : MoveMatch)
    (h : moveTail verb rest = some m) : m.verb = verb := by
  unfold moveTail at h
  split at h
  · exact Option.noConfusion h
  · split at h
    · split at h
      · exact Option.noConfusion h
      · split at h
        · exact Option.noConfusion h
        · split at h
          · split at h
            · cases h
              rfl
            · exact Option.noConfusion h
          · exact Option.noConfusion h
    · exact Option.noConfusion h

theorem idTail_verb (verb rest : List Char) (m : IdMatch)
    (h : idTail verb rest = some m) : m.verb = verb := by
  unfold idTail at h
  split at h
  · exact Option.noConfusion h
  · split at h
    · split at h
      · exact Option.noConfusion h
      · cases h
        rfl
    · exact Option.noConfusion h

theorem parseTaskCommand_verb (s : List Char) (m : TaskMatch)
    (h : parseTaskCommand s = some m) :
    jsToLower (String.mk m.verb) = "task" ∨ jsToLower (String.mk m.verb) = "t" := by
  obtain ⟨p, hp, verb, rest, hs, hk⟩ := tryVerbs_mem _ _ _ _ h
  have hv : m.verb = verb := taskTail_verb verb rest m hk
  have hmap := stripCI_verb p s verb rest hs
  rcases List.mem_cons.mp hp with rfl | hp
  · left
    show String.mk (m.verb.map Char.toLower) = "task"
    rw [hv, hmap]
    rfl
  rcases List.mem_cons.mp hp with rfl | hp
  · right
    show String.mk (m.verb.map Char.toLower) = "t"
    rw [hv, hmap]
    rfl
  · exact absurd hp (List.not_mem_nil p)

theorem parseEditCommand_verb (s : List Char) (m : EditMatch)
    (h : parseEditCommand s = some m) :
    jsToLower (String.mk m.verb) = "edit" ∨ jsToLower (String.mk m.verb) = "e" := by
  obtain ⟨p, hp, verb, rest, hs, hk⟩ := tryVerbs_mem _ _ _ _ h
  have hv : m.verb = verb := editTail_verb verb rest m hk
  have hmap := stripCI_verb p s verb rest hs
  rcases List.mem_cons.mp hp with rfl | hp
  · left
    show String.mk (m.verb.map Char.toLower) = "edit"
    rw [hv, hmap]
    rfl
  rcases List.mem_cons.mp hp with rfl | hp
  · right
    show String.mk (m.verb.map Char.toLower) = "e"
    rw [hv, hmap]
    rfl
  · exact absurd hp (List.not_mem_nil p)

theorem parseMoveCommand_verb (s : List Char) (m : MoveMatch)
    (h : parseMoveCommand s = some m) :
    jsToLower (String.mk m.verb) = "mv" ∨ jsToLower (String.mk m.verb) = "move" := by
  obtain ⟨p, hp, verb, rest, hs, hk⟩ := tryVerbs_mem _ _ _ _ h
  have hv : m.verb = verb := moveTail_verb verb rest m hk
  have hmap := stripCI_verb p s verb rest hs
  rcases List.mem_cons.mp hp with rfl | hp
  · left
    show String.mk (m.verb.map Char.toLower) = "mv"
    rw [hv, hmap]
    rfl
  rcases List.mem_cons.mp hp with rfl | hp
  · right
    show String.mk (m.verb.map Char.toLower) = "move"
    rw [hv, hmap]
    rfl
  · exact absurd hp (List.not_mem_nil p)

theorem parseOtherCommand_verb (s : List Char) (verb : List Char)
    (h : parseOtherCommand s = some verb) :
    jsToLower (String.mk verb) = "close-help" ∨ jsToLower (String.mk verb) = "help" ∨
      jsToLower (String.mk verb) = "today" := by
  obtain ⟨p, hp, verb', rest, hs, hk⟩ := tryVerbs_mem _ _ _ _ h
  have hv : verb' = verb := Option.some.inj hk
  have hmap := stripCI_verb p s verb' rest hs
  rw [hv] at hmap
  rcases List.mem_cons.mp hp with rfl | hp
  · left
    show String.mk (verb.map Char.toLower) = "close-help"
    rw [hmap]
    rfl
  rcases List.mem_cons.mp hp with rfl | hp
  · right
    left
    show String.mk (verb.map Char.toLower) = "help"
    rw [hmap]
    rfl
  rcases List.mem_cons.mp hp with rfl | hp
  · right
    right
    show String.mk (verb.map Char.toLower) = "today"
    rw [hmap]
    rfl
  · exact absurd hp (List.not_mem_nil p)

theorem parseCheckCommand_verb (s : List Char) (m : IdMatch)
    (h : parseCheckCommand s = some m) :
    jsToLower (String.mk m.verb) = "check" ∨ jsToLower (String.mk m.verb) = "c" := by
  obtain ⟨p, hp, verb, rest, hs, hk⟩ := tryVerbs_mem _ _ _ _ h
  have hv : m.verb = verb := idTail_verb verb rest m hk
  have hmap := stripCI_verb p s verb rest hs
  rcases List.mem_cons.mp hp with rfl | hp
  · left
    show String.mk (m.verb.map Char.toLower) = "check"
    rw [hv, hmap]
    rfl
  rcases List.mem_cons.mp hp with rfl | hp
  · right
    show String.mk (m.verb.map Char.toLower) = "c"
    rw [hv, hmap]
    rfl
  · exact absurd hp (List.not_mem_nil p)

theorem parseBeginCommand_verb (s : List Char) (m : IdMatch)
    (h : parseBeginCommand s = some m) :
    jsToLower (String.mk m.verb) = "begin" ∨ jsToLower (String.mk m.verb) = "b" := by
  obtain ⟨p, hp, verb, rest, hs, hk⟩ := tryVerbs_mem _ _ _ _ h
  have hv : m.verb = verb := idTail_verb verb rest m hk
  have hmap := stripCI_verb p s verb rest hs
  rcases List.mem_cons.mp hp with rfl | hp
  · left
    show String.mk (m.verb.map Char.toLower) = "begin"
    rw [hv, hmap]
    rfl
  rcases List.mem_cons.mp hp with rfl | hp
  · right
    show String.mk (m.verb.map Char.toLower) = "b"
    rw [hv, hmap]
    rfl
  · exact absurd hp (List.not_mem_nil p)

theorem parseDeleteCommand_verb (s : List Char) (m : IdMatch)
    (h : parseDeleteCommand s = some m) :
    jsToLower (String.mk m.verb) = "delete" ∨ jsToLower (String.mk m.verb) = "d" := by
  obtain ⟨p, hp, verb, rest, hs, hk⟩ := tryVerbs_mem _ _ _ _ h
  have hv : m.verb = verb := idTail_verb verb rest m hk
  have hmap := stripCI_verb p s verb rest hs
  rcases List.mem_cons.mp hp with rfl | hp
  · left
    show String.mk (m.verb.map Char.toLower) = "delete"
    rw [hv, hmap]
    rfl
  rcases List.mem_cons.mp hp with rfl | hp
  · right
    show String.mk (m.verb.map Char.toLower) = "d"
    rw [hv, hmap]
    rfl
  · exact absurd hp (List.not_mem_nil p)

theorem parseFlagCommand_verb (s : List Char) (m : IdMatch)
    (h : parseFlagCommand s = some m) :
    jsToLower (String.mk m.verb) = "flag" ∨ jsToLower (String.mk m.verb) = "fl" := by
  obtain ⟨p, hp, verb, rest, hs, hk⟩ := tryVerbs_mem _ _ _ _ h
  have hv : m.verb = verb := idTail_verb verb rest m hk
  have hmap := stripCI_verb p s verb rest hs
  rcases List.mem_cons.mp hp with rfl | hp
  · left
    show String.mk (m.verb.map Char.toLower) = "flag"
    rw [hv, hmap]
    rfl
  rcases List.mem_cons.mp hp with rfl | hp
  · right
    show String.mk (m.verb.map Char.toLower) = "fl"
    rw [hv, hmap]
    rfl
  · exact absurd hp (List.not_mem_nil p)

theorem parseStopCommand_verb (s : List Char) (m : IdMatch)
    (h : parseStopCommand s = some m) :
    jsToLower (String.mk m.verb) = "stop" ∨ jsToLower (String.mk m.verb) = "st" := by
  obtain ⟨p, hp, verb, rest, hs, hk⟩ := tryVerbs_mem _ _ _ _ h
  have hv : m.verb = verb := idTail_verb verb rest m hk
  have hmap := stripCI_verb p s verb rest hs
  rcases List.mem_cons.mp hp with rfl | hp
  · left
    show String.mk (m.verb.map Char.toLower) = "stop"
    rw [hv, hmap]
    rfl
  rcases List.mem_cons.mp hp with rfl | hp
  · right
    show String.mk (m.verb.map Char.toLower) = "st"
    rw [hv, hmap]
    rfl
  · exact absurd hp (List.not_mem_nil p)

theorem matchOtherId_verb (s : List Char) (m : IdMatch) (h : matchOtherId s = some m) :
    jsToLower (String.mk m.verb) ∈
      (["c", "check", "b", "begin", "d", "delete", "fl", "flag", "st", "stop"] :
        List String) := by
  unfold matchOtherId at h
  rcases h1 : parseCheckCommand s with _ | m1
  · rw [h1] at h
    rcases h2 : parseBeginCommand s with _ | m2
    · rw [h2] at h
      rcases h3 : parseDeleteCommand s with _ | m3
      · rw [h3] at h
        rcases h4 : parseFlagCommand s with _ | m4
        · rw [h4] at h
          have h5 : parseStopCommand s = some m := h
          rcases parseStopCommand_verb s m h5 with hv | hv <;> rw [hv] <;> decide
        · rw [h4] at h
          obtain rfl : m4 = m := Option.some.inj h
          rcases parseFlagCommand_verb s m4 h4 with hv | hv <;> rw [hv] <;> decide
      · rw [h3] at h
        obtain rfl : m3 = m := Option.some.inj h
        rcases parseDeleteCommand_verb s m3 h3 with hv | hv <;> rw [hv] <;> decide
    · rw [h2] at h
      obtain rfl : m2 = m := Option.some.inj h
      rcases parseBeginCommand_verb s m2 h2 with hv | hv <;> rw [hv] <;> decide
  · rw [h1] at h
    obtain rfl : m1 = m := Option.some.inj h
    rcases parseCheckCommand_verb s m1 h1 with hv | hv <;> rw [hv] <;> decide

/-- Well-formedness of a parser result: the (case-folded) verb is one of the
grammar's verbs and exactly the fields of that verb's command shape are
populated. -/
def wellFormedCommand (c : Command) : Prop :=
  (jsToLower c.command ∈ (["t", "task"] : List String) ∧ c.text.isSome = true ∧
    c.id = none) ∨
  (jsToLower c.command ∈ (["e", "edit"] : List String) ∧ c.text.isSome = true ∧
    c.id.isSome = true ∧ c.tag = none) ∨
  (jsToLower c.command ∈ (["mv", "move"] : List String) ∧ c.id.isSome = true ∧
    c.tag.isSome = true ∧ c.text = none) ∨
  (jsToLower c.command ∈
      (["c", "check", "b", "begin", "d", "delete", "fl", "flag", "st", "stop"] :
        List String) ∧
    c.id.isSome = true ∧ c.tag = none ∧ c.text = none) ∨
  (jsToLower c.command ∈ (["close-help", "help", "today"] : List String) ∧
    c.id = none ∧ c.tag = none ∧ c.text = none)

/-- C6: `parseCommand` is total and deterministic: for every input string it
returns (without any exception — it is a total function) either `none` or a
well-formed Command, and two calls on the same input return structurally
equal results. -/
theorem C6_parseCommand_total_deterministic (s : String) :
    (parseCommand s = none ∨ ∃ c, parseCommand s = some c ∧ wellFormedCommand c) ∧
    parseCommand s = parseCommand s := by
  refine ⟨?_, rfl⟩
  unfold parseCommand
  rcases ht : parseTaskCommand s.data with _ | mt
  case some =>
    right
    refine ⟨_, rfl, ?_⟩
    left
    refine ⟨?_, rfl, rfl⟩
    rcases parseTaskCommand_verb s.data mt ht with hv | hv <;> rw [hv] <;> decide
  rcases he : parseEditCommand s.data with _ | me
  case some =>
    right
    refine ⟨_, rfl, ?_⟩
    right
    left
    refine ⟨?_, rfl, rfl, rfl⟩
    rcases parseEditCommand_verb s.data me he with hv | hv <;> rw [hv] <;> decide
  rcases hm : parseMoveCommand s.data with _ | mm
  case some =>
    right
    refine ⟨_, rfl, ?_⟩
    right
    right
    left
    refine ⟨?_, rfl, rfl, rfl⟩
    rcases parseMoveCommand_verb s.data mm hm with hv | hv <;> rw [hv] <;> decide
  rcases ho : matchOtherId s.data with _ | mo
  case some =>
    right
    refine ⟨_, rfl, ?_⟩
    right
    right
    right
    left
    exact ⟨matchOtherId_verb s.data mo ho, rfl, rfl, rfl⟩
  rcases hh : parseOtherCommand s.data with _ | vh
  case some =>
    right
    refine ⟨_, rfl, ?_⟩
    right
    right
    right
    right
    refine ⟨?_, rfl, rfl, rfl⟩
    rcases parseOtherCommand_verb s.data vh hh with hv | hv | hv <;> rw [hv] <;> decide
  case none =>
    left
    rfl

end Pomoday
